import Mathlib

/-!
# `askQuestion` (static/script.js)

A shallow embedding of the one function of the repository,

```
function askQuestion() {
    const question = document.getElementById("question").value;
    const answerDiv = document.getElementById("answer");
    answerDiv.innerText = "Thinking...";
    fetch("/ask", { method: "POST", headers: { "Content-Type": "application/json" },
                    body: JSON.stringify({ question: question }) })
    .then(res => res.json())
    .then(data => { answerDiv.innerText = data.answer; })
    .catch(err => { answerDiv.innerText = "Error occurred."; });
}
```

together with the part of the host it runs on that its behaviour depends on:
JavaScript strings and values, `JSON.stringify`, `JSON.parse`, the string
conversion applied by the `innerText` setter, promise chaining, and an event
loop in which the network settles the two promises of every request
(`fetch(...)` and `res.json()`) in separate tasks.

What the model takes from the host:

* strings are sequences of UTF-16 code units, lone surrogates included;
* the element with id `question`, when there is one, is an input whose `value`
  is a string; the element with id `answer` is given by its child nodes, which
  the `innerText` setter replaces by text nodes and `<br>` elements; no event
  removes an element;
* a response body is the text the bytes decode to;
* every settlement by the network is a task of its own, and the microtasks it
  leaves (the handlers of the chain) run before the next task;
* the conversion of numbers to strings is a parameter (`Platform`).
-/

namespace AskQuestion

/-! ## JavaScript strings and values -/

/-- A JavaScript string: a sequence of UTF-16 code units. -/
abbrev JSString := List Nat

/-- The JavaScript string of a literal of the source (code points below 0x10000). -/
def lit (s : String) : JSString := s.toList.map Char.toNat

/-- JavaScript values that this program can meet: `undefined`, the values
`JSON.parse` builds, and error objects.  A number is kept as a JSON numeric
literal that denotes it.  The properties of an object are its own properties,
each key once. -/
inductive JSVal where
  | undefined
  | null
  | bool (b : Bool)
  | num (lexeme : JSString)
  | str (s : JSString)
  | arr (elems : List JSVal)
  | obj (props : List (JSString × JSVal))
  | exn (name : JSString) (message : JSString)

/-- What the host contributes to the conversions of numbers: `Number::toString`
of the number a JSON literal denotes, and whether that number is finite. -/
structure Platform where
  numberToString : JSString → JSString
  isFinite : JSString → Bool

/-- The result of running a piece of JavaScript: `.ok v` is a normal
completion with value `v`, `.error e` is a throw of `e`.  It is also the
state of a settled promise: fulfilled with `v`, or rejected with `e`. -/
abbrev Completion := Except JSVal JSVal

def typeError : JSVal := JSVal.exn (lit "TypeError") []

def syntaxError : JSVal := JSVal.exn (lit "SyntaxError") []

/-- The value of own property `key` in a property list. -/
def lookupProp (key : JSString) : List (JSString × JSVal) → Option JSVal
  | [] => none
  | (k, v) :: rest => if k = key then some v else lookupProp key rest

/-- The operation `CreateDataProperty`: set own property `key`, keeping the place of a key
that is already there. -/
def setProp (key : JSString) (v : JSVal) : List (JSString × JSVal) → List (JSString × JSVal)
  | [] => [(key, v)]
  | (k, old) :: rest => if k = key then (k, v) :: rest else (k, old) :: setProp key v rest

/-- The property read `value.key` for a key that no built-in prototype defines
(as `answer`): a `TypeError` on `undefined` and `null`, the own property of an
object, and `undefined` everywhere else. -/
def getV (value : JSVal) (key : JSString) : Completion :=
  match value with
  | .undefined => .error typeError
  | .null => .error typeError
  | .obj props => .ok ((lookupProp key props).getD .undefined)
  | _ => .ok .undefined

/-- Join strings with a separator (`Array.prototype.join`, `JSON.stringify`). -/
def joinWith (sep : JSString) : List JSString → JSString
  | [] => []
  | [s] => s
  | s :: rest => s ++ sep ++ joinWith sep rest

mutual
/-- The operation `ToString(value)`.  An array joins the strings of its elements with a
comma, `undefined` and `null` elements giving the empty string.  An ordinary
object gives `[object Object]` through `Object.prototype.toString`, unless an
own property `toString` shadows it: the values of `JSON.parse` are never
callable, `Object.prototype.valueOf` returns the object, and
`OrdinaryToPrimitive` throws a `TypeError`. -/
def toStr (P : Platform) : JSVal → Except JSVal JSString
  | .undefined => .ok (lit "undefined")
  | .null => .ok (lit "null")
  | .bool b => .ok (if b then lit "true" else lit "false")
  | .num n => .ok (P.numberToString n)
  | .str s => .ok s
  | .arr elems => (elemStrs P elems).map (joinWith [0x2C])
  | .obj props =>
    match lookupProp (lit "toString") props with
    | some _ => .error typeError
    | none => .ok (lit "[object Object]")
  | .exn name message =>
    .ok (if name = [] then message else if message = [] then name
         else name ++ lit ": " ++ message)
termination_by structural v => v
/-- The strings `Array.prototype.join` joins. -/
def elemStrs (P : Platform) : List JSVal → Except JSVal (List JSString)
  | [] => .ok []
  | x :: rest =>
    let first : Except JSVal JSString :=
      match x with
      | .undefined => .ok []
      | .null => .ok []
      | v => toStr P v
    match first with
    | .error e => .error e
    | .ok s =>
      match elemStrs P rest with
      | .error e => .error e
      | .ok ss => .ok (s :: ss)
termination_by structural xs => xs
end

/-- Conversion of a value to the `[LegacyNullToEmptyString] DOMString` that the
`innerText` setter takes: `null` becomes the empty string, every other value
goes through `ToString`. -/
def toDOMString (P : Platform) : JSVal → Except JSVal JSString
  | .null => .ok []
  | v => toStr P v

/-! ## `JSON.stringify` -/

/-- The lower-case hexadecimal digit of `d < 16`. -/
def hexDigit (d : Nat) : Nat := if d < 10 then 0x30 + d else 0x61 + (d - 10)

/-- The operation `UnicodeEscape(unit)`: a backslash, `u`, and four hexadecimal digits. -/
def unicodeEscape (u : Nat) : JSString :=
  [0x5C, 0x75, hexDigit (u / 4096 % 16), hexDigit (u / 256 % 16), hexDigit (u / 16 % 16),
   hexDigit (u % 16)]

def isHighSurrogate (c : Nat) : Bool := decide (0xD800 ≤ c ∧ c ≤ 0xDBFF)

def isLowSurrogate (c : Nat) : Bool := decide (0xDC00 ≤ c ∧ c ≤ 0xDFFF)

/-- The escape of one code unit that is not part of a surrogate pair. -/
def quoteUnit (c : Nat) : JSString :=
  if c = 0x08 then [0x5C, 0x62]
  else if c = 0x09 then [0x5C, 0x74]
  else if c = 0x0A then [0x5C, 0x6E]
  else if c = 0x0C then [0x5C, 0x66]
  else if c = 0x0D then [0x5C, 0x72]
  else if c = 0x22 then [0x5C, 0x22]
  else if c = 0x5C then [0x5C, 0x5C]
  else if c < 0x20 ∨ isHighSurrogate c ∨ isLowSurrogate c then unicodeEscape c
  else [c]

/-- The characters `QuoteJSONString` puts between the quotes: the string is
read code point by code point, a surrogate pair is copied, every other code
unit goes through `quoteUnit` (so a lone surrogate is escaped). -/
def quoteChars : JSString → JSString
  | [] => []
  | [c] => quoteUnit c
  | c :: d :: rest =>
    if isHighSurrogate c ∧ isLowSurrogate d then c :: d :: quoteChars rest
    else quoteUnit c ++ quoteChars (d :: rest)

/-- The operation `QuoteJSONString(value)`. -/
def quoteJSONString (s : JSString) : JSString := 0x22 :: (quoteChars s ++ [0x22])

mutual
/-- The operation `SerializeJSONProperty` without replacer and indentation: `none` stands
for the result `undefined`. -/
def serialize (P : Platform) : JSVal → Option JSString
  | .undefined => none
  | .null => some (lit "null")
  | .bool b => some (if b then lit "true" else lit "false")
  | .num n => some (if P.isFinite n then P.numberToString n else lit "null")
  | .str s => some (quoteJSONString s)
  | .arr elems => some (0x5B :: (joinWith [0x2C] (serializeElems P elems) ++ [0x5D]))
  | .obj props => some (0x7B :: (joinWith [0x2C] (serializeProps P props) ++ [0x7D]))
  | .exn _ _ => some [0x7B, 0x7D]
termination_by structural v => v
/-- The elements of `SerializeJSONArray`: `undefined` is written `null`. -/
def serializeElems (P : Platform) : List JSVal → List JSString
  | [] => []
  | x :: rest => (serialize P x).getD (lit "null") :: serializeElems P rest
termination_by structural xs => xs
/-- The members of `SerializeJSONObject`: a property whose value is
`undefined` is left out. -/
def serializeProps (P : Platform) : List (JSString × JSVal) → List JSString
  | [] => []
  | (k, v) :: rest =>
    match serialize P v with
    | none => serializeProps P rest
    | some s => (quoteJSONString k ++ 0x3A :: s) :: serializeProps P rest
termination_by structural ps => ps
end

/-- The function `JSON.stringify(value)`. -/
def JSON.stringify (P : Platform) (value : JSVal) : Option JSString := serialize P value

/-! ## `JSON.parse` -/

def isWs (c : Nat) : Bool := c = 0x09 || c = 0x0A || c = 0x0D || c = 0x20

def skipWs : JSString → JSString
  | [] => []
  | c :: rest => if isWs c then skipWs rest else c :: rest

def hexVal (c : Nat) : Option Nat :=
  if 0x30 ≤ c ∧ c ≤ 0x39 then some (c - 0x30)
  else if 0x61 ≤ c ∧ c ≤ 0x66 then some (c - 0x61 + 10)
  else if 0x41 ≤ c ∧ c ≤ 0x46 then some (c - 0x41 + 10)
  else none

/-- The character a single-character JSON escape stands for. -/
def unescape (e : Nat) : Option Nat :=
  if e = 0x22 then some 0x22
  else if e = 0x2F then some 0x2F
  else if e = 0x5C then some 0x5C
  else if e = 0x62 then some 0x08
  else if e = 0x66 then some 0x0C
  else if e = 0x6E then some 0x0A
  else if e = 0x72 then some 0x0D
  else if e = 0x74 then some 0x09
  else none

/-- The characters of a JSON string after its opening quote, up to and
including the closing quote: the string denoted and the input left. -/
def parseChars : JSString → Option (JSString × JSString)
  | [] => none
  | c :: rest =>
    if c = 0x22 then some ([], rest)
    else if c = 0x5C then
      match rest with
      | [] => none
      | e :: rest2 =>
        if e = 0x75 then
          match rest2 with
          | h1 :: h2 :: h3 :: h4 :: rest3 =>
            match hexVal h1, hexVal h2, hexVal h3, hexVal h4 with
            | some a, some b, some c, some d =>
              (parseChars rest3).map (fun r => ((((a * 16 + b) * 16 + c) * 16 + d) :: r.1, r.2))
            | _, _, _, _ => none
          | _ => none
        else
          match unescape e with
          | some u => (parseChars rest2).map (fun r => (u :: r.1, r.2))
          | none => none
    else if c < 0x20 then none
    else (parseChars rest).map (fun r => (c :: r.1, r.2))

def isDigit (c : Nat) : Bool := decide (0x30 ≤ c ∧ c ≤ 0x39)

/-- One or more digits at the head of the input. -/
def digits1 (input : JSString) : Option (JSString × JSString) :=
  match input.span isDigit with
  | ([], _) => none
  | (ds, rest) => some (ds, rest)

/-- The integer part of a JSON number: `0`, or a non-zero digit and digits. -/
def parseInt (input : JSString) : Option (JSString × JSString) :=
  match input with
  | [] => none
  | d :: rest =>
    if d = 0x30 then some ([d], rest)
    else if isDigit d then some (d :: (rest.span isDigit).1, (rest.span isDigit).2)
    else none

/-- The optional fraction of a JSON number. -/
def parseFrac (input : JSString) : Option (JSString × JSString) :=
  match input with
  | c :: rest =>
    if c = 0x2E then (digits1 rest).map (fun r => (c :: r.1, r.2)) else some ([], input)
  | [] => some ([], input)

/-- The optional exponent of a JSON number. -/
def parseExp (input : JSString) : Option (JSString × JSString) :=
  match input with
  | c :: rest =>
    if c = 0x65 ∨ c = 0x45 then
      match rest with
      | s :: rest2 =>
        if s = 0x2B ∨ s = 0x2D then (digits1 rest2).map (fun r => (c :: s :: r.1, r.2))
        else (digits1 rest).map (fun r => (c :: r.1, r.2))
      | [] => none
    else some ([], input)
  | [] => some ([], input)

/-- A JSON number at the head of the input: its literal and the input left. -/
def parseNumber (input : JSString) : Option (JSString × JSString) :=
  let signed : JSString × JSString :=
    match input with
    | c :: rest => if c = 0x2D then ([c], rest) else ([], input)
    | [] => ([], input)
  match parseInt signed.2 with
  | none => none
  | some (int, r1) =>
    match parseFrac r1 with
    | none => none
    | some (frac, r2) =>
      match parseExp r2 with
      | none => none
      | some (exp, r3) => some (signed.1 ++ int ++ frac ++ exp, r3)

/-- The input left after the given word, if the input starts with it. -/
def expect : JSString → JSString → Option JSString
  | [], input => some input
  | _ :: _, [] => none
  | w :: word, c :: input => if w = c then expect word input else none

mutual
/-- A JSON value at the head of the input.  The first argument bounds the
number of nested calls; `JSON.parse` passes a bound that no text reaches
(`parseValue_fuel`). -/
def parseValue : Nat → JSString → Option (JSVal × JSString)
  | 0, _ => none
  | _ + 1, [] => none
  | fuel + 1, c :: rest =>
    if c = 0x7B then
      match skipWs rest with
      | [] => none
      | d :: rest2 => if d = 0x7D then some (.obj [], rest2) else parseMembers fuel [] (d :: rest2)
    else if c = 0x5B then
      match skipWs rest with
      | [] => none
      | d :: rest2 => if d = 0x5D then some (.arr [], rest2) else parseElements fuel [] (d :: rest2)
    else if c = 0x22 then (parseChars rest).map (fun r => (.str r.1, r.2))
    else if c = 0x74 then (expect (lit "rue") rest).map (fun r => (.bool true, r))
    else if c = 0x66 then (expect (lit "alse") rest).map (fun r => (.bool false, r))
    else if c = 0x6E then (expect (lit "ull") rest).map (fun r => (.null, r))
    else (parseNumber (c :: rest)).map (fun r => (.num r.1, r.2))
/-- The members of a JSON object, from the first character of a member name
to the closing brace.  A name met twice keeps its last value. -/
def parseMembers : Nat → List (JSString × JSVal) → JSString → Option (JSVal × JSString)
  | 0, _, _ => none
  | _ + 1, _, [] => none
  | fuel + 1, acc, c :: rest =>
    if c = 0x22 then
      match parseChars rest with
      | none => none
      | some (key, r1) =>
        match skipWs r1 with
        | [] => none
        | colon :: r2 =>
          if colon = 0x3A then
            match parseValue fuel (skipWs r2) with
            | none => none
            | some (v, r3) =>
              match skipWs r3 with
              | [] => none
              | d :: r4 =>
                if d = 0x7D then some (.obj (setProp key v acc), r4)
                else if d = 0x2C then parseMembers fuel (setProp key v acc) (skipWs r4)
                else none
          else none
    else none
/-- The elements of a JSON array, from the first character of an element to
the closing bracket. -/
def parseElements : Nat → List JSVal → JSString → Option (JSVal × JSString)
  | 0, _, _ => none
  | fuel + 1, acc, input =>
    match parseValue fuel input with
    | none => none
    | some (v, r1) =>
      match skipWs r1 with
      | [] => none
      | d :: r2 =>
        if d = 0x5D then some (.arr (acc ++ [v]), r2)
        else if d = 0x2C then parseElements fuel (acc ++ [v]) (skipWs r2)
        else none
end

/-- The function `JSON.parse(text)`: the value of a text that is one JSON
value between optional white space, a `SyntaxError` for every other text. -/
def JSON.parse (text : JSString) : Completion :=
  match parseValue (2 * text.length + 1) (skipWs text) with
  | none => .error syntaxError
  | some (v, rest) => if skipWs rest = [] then .ok v else .error syntaxError

/-! ## The page, the network and the event loop -/

/-- The arguments of a call of `fetch`. -/
structure Request where
  url : JSString
  method : JSString
  headers : List (JSString × JSString)
  body : Option JSString

/-- What of a response is there when the promise of `fetch` is fulfilled; the
body is read afterwards. -/
structure Response where
  status : Nat
  headers : List (JSString × JSString)

/-- What the program does to the outside, with the invocation it belongs to:
an assignment of a string to `answerDiv.innerText`, and a call of `fetch`. -/
inductive Effect where
  | write (inv : Nat) (text : JSString)
  | request (inv : Nat) (req : Request)

def Effect.inv : Effect → Nat
  | .write inv _ => inv
  | .request inv _ => inv

/-- Where the promise chain of a request stands: the promise of `fetch(...)`
is pending, or it is fulfilled and the promise of `res.json()` is pending. -/
inductive Stage where
  | fetching
  | reading

/-- A child node of the `answer` element: a text node, or a `<br>` element. -/
inductive Node where
  | text (data : JSString)
  | br
  deriving DecidableEq

/-- A text node for a run of characters, none for the empty run. -/
def flushRun (run : JSString) : List Node := if run = [] then [] else [.text run]

/-- The rendered text fragment of the rest of a string, `run` being the
characters since the last line break: a run of characters other than LF and
CR becomes a text node, and each LF, CR or CR LF becomes a `<br>` element. -/
def fragmentFrom (run : JSString) : JSString → List Node
  | [] => flushRun run
  | [c] =>
    if c = 0x0A ∨ c = 0x0D then flushRun run ++ [.br] else flushRun (run ++ [c])
  | c :: d :: rest =>
    if c = 0x0D ∧ d = 0x0A then flushRun run ++ .br :: fragmentFrom [] rest
    else if c = 0x0A ∨ c = 0x0D then flushRun run ++ .br :: fragmentFrom [] (d :: rest)
    else fragmentFrom (run ++ [c]) (d :: rest)

/-- The rendered text fragment of a string: the children an element has after
the string is assigned to its `innerText`. -/
def renderedTextFragment (text : JSString) : List Node := fragmentFrom [] text

/-- The `textContent` of an element with the given children: the data of its
text nodes, in order. -/
def textContent : List Node → JSString
  | [] => []
  | .text data :: rest => data ++ textContent rest
  | .br :: rest => textContent rest

/-- The text of the children with a line feed for each `<br>`: what the
`innerText` getter returns where the style sheet leaves white space alone. -/
def textWithBreaks : List Node → JSString
  | [] => []
  | .text data :: rest => data ++ textWithBreaks rest
  | .br :: rest => 0x0A :: textWithBreaks rest

/-- The state of the page.  `question` is the value of the input element with
id `question` and `answer` the children of the element with id `answer`, `none`
when the document has no such element.  Invocations are numbered in the order
of their calls of `fetch`; `pending` gives the stage of the chain of each
request in flight, `settled` the state in which the last promise of a finished
chain (the one `.catch(...)` returns) settled, and `effects` lists the effects
so far, oldest first. -/
structure World where
  question : Option JSString
  answer : Option (List Node)
  nextId : Nat
  pending : Nat → Option Stage
  settled : Nat → Option Completion
  effects : List Effect

/-- The effects of one invocation. -/
def effectsOf (w : World) (inv : Nat) : List Effect := w.effects.filter (fun e => e.inv = inv)

/-- The requests issued so far. -/
def requests (w : World) : List (Nat × Request) :=
  w.effects.filterMap (fun e => match e with
    | .request inv req => some (inv, req)
    | .write _ _ => none)

/-- A function of one argument, run on the page: its completion and the page
it leaves. -/
abbrev Handler := JSVal → World → Completion × World

/-- The promise `promise.then(onFulfilled)` once `promise` has settled. -/
def thenP (onFulfilled : Handler) (promise : Completion) (w : World) : Completion × World :=
  match promise with
  | .ok v => onFulfilled v w
  | .error e => (.error e, w)

/-- The promise `promise.catch(onRejected)` once `promise` has settled. -/
def catchP (onRejected : Handler) (promise : Completion) (w : World) : Completion × World :=
  match promise with
  | .ok v => (.ok v, w)
  | .error e => onRejected e w

/-- The statement `answerDiv.innerText = value;`: a `TypeError` when
`answerDiv` is `null`, else the value is converted to a string, which may
throw, and the children of the element are replaced by the rendered text
fragment of that string. -/
def assignInnerText (P : Platform) (inv : Nat) (value : JSVal) (w : World) : Completion × World :=
  match w.answer with
  | none => (.error typeError, w)
  | some _ =>
    match toDOMString P value with
    | .error e => (.error e, w)
    | .ok text =>
      (.ok .undefined,
       { w with
         answer := some (renderedTextFragment text)
         effects := w.effects ++ [.write inv text] })

/-- The call `fetch(url, init)` of invocation `inv`: the request goes out and
its promise is pending. -/
def fetch (inv : Nat) (req : Request) (w : World) : World :=
  { w with
    nextId := w.nextId + 1
    pending := Function.update w.pending inv (some .fetching)
    effects := w.effects ++ [.request inv req] }

/-- The state in which the promise of `res.json()` settles, from the outcome
of reading the body: the rejection of a failed read, else `JSON.parse` of the
text. -/
def Response.json (body : Except JSVal JSString) : Completion :=
  match body with
  | .error e => .error e
  | .ok text => JSON.parse text

/-- The handler `data => { answerDiv.innerText = data.answer; }` -/
def onData (P : Platform) (inv : Nat) : Handler := fun data w =>
  match getV data (lit "answer") with
  | .error e => (.error e, w)
  | .ok value => assignInnerText P inv value w

/-- The handler `err => { answerDiv.innerText = "Error occurred."; }` -/
def onError (P : Platform) (inv : Nat) : Handler := fun _err w =>
  assignInnerText P inv (.str (lit "Error occurred.")) w

/-- The rest of the chain, `.then(data => ...).catch(err => ...)`, run when
the promise of `.then(res => res.json())` has settled as `p1`; the chain is
then finished and the state of its last promise recorded. -/
def finish (P : Platform) (inv : Nat) (p1 : Completion) (w : World) : World :=
  let r2 := thenP (onData P inv) p1 w
  let r3 := catchP (onError P inv) r2.1 r2.2
  { r3.2 with
    pending := Function.update r3.2.pending inv none
    settled := Function.update r3.2.settled inv (some r3.1) }

/-- The function `askQuestion` of the source: its completion and the page it leaves. -/
def askQuestion (P : Platform) (w : World) : Completion × World :=
  -- const question = document.getElementById("question").value;
  match w.question with
  | none => (.error typeError, w)
  | some question =>
    let inv := w.nextId
    -- const answerDiv = document.getElementById("answer");
    -- answerDiv.innerText = "Thinking...";
    match assignInnerText P inv (.str (lit "Thinking...")) w with
    | (.error e, w1) => (.error e, w1)
    | (.ok _, w1) =>
      -- fetch("/ask", ...).then(...).then(...).catch(...); the function returns `undefined`
      (.ok .undefined,
       fetch inv
         { url := lit "/ask"
           method := lit "POST"
           headers := [(lit "Content-Type", lit "application/json")]
           body := JSON.stringify P (.obj [(lit "question", .str question)]) }
         w1)

/-- What happens to the page: the user edits the question, `askQuestion` is
called, the network settles the promise of a `fetch`, or the reading of a
response body ends. -/
inductive Event where
  | input (text : JSString)
  | call
  | fetchSettled (id : Nat) (r : Except JSVal Response)
  | bodySettled (id : Nat) (r : Except JSVal JSString)

/-- The request an event of the network is about. -/
def Event.target : Event → Option Nat
  | .fetchSettled id _ => some id
  | .bodySettled id _ => some id
  | _ => none

/-- One task of the event loop, with the microtasks it leaves.  An exception
that escapes `askQuestion` goes to the host.  A rejected `fetch` rejects the
promise of `.then(res => res.json())` with the same reason; a fulfilled one
runs `res => res.json()`, whose promise is pending until the body is read.
An event for a chain that is not at that stage does nothing. -/
def step (P : Platform) (w : World) : Event → World
  | .input text => { w with question := w.question.map (fun _ => text) }
  | .call => (askQuestion P w).2
  | .fetchSettled id r =>
    match w.pending id, r with
    | some .fetching, .error e => finish P id (.error e) w
    | some .fetching, .ok _res => { w with pending := Function.update w.pending id (some .reading) }
    | _, _ => w
  | .bodySettled id r =>
    match w.pending id with
    | some .reading => finish P id (Response.json r) w
    | _ => w

/-- The page after a sequence of events. -/
def run (P : Platform) (w : World) (events : List Event) : World := events.foldl (step P) w

/-- The text `data.answer` is shown as, or the exception that reading and
converting it throws. -/
def answerText (P : Platform) (data : JSVal) : Except JSVal JSString :=
  match getV data (lit "answer") with
  | .error e => .error e
  | .ok value => toDOMString P value

/-- The string a chain assigns to `answerDiv.innerText` last when the promise
of `.then(res => res.json())` has settled as `p1` (see `finish_eq`). -/
def shown (P : Platform) (p1 : Completion) : JSString :=
  match p1 with
  | .error _ => lit "Error occurred."
  | .ok data =>
    match answerText P data with
    | .error _ => lit "Error occurred."
    | .ok text => text

/-- What the network does with one request: the `fetch` is rejected, or it is
fulfilled and reading the body fails, or it is fulfilled and the body read. -/
inductive Outcome where
  | rejected (e : JSVal)
  | unread (res : Response) (e : JSVal)
  | received (res : Response) (body : JSString)

/-- The events of a request with the given outcome, in their order. -/
def Outcome.events (id : Nat) : Outcome → List Event
  | .rejected e => [.fetchSettled id (.error e)]
  | .unread res e => [.fetchSettled id (.ok res), .bodySettled id (.error e)]
  | .received res body => [.fetchSettled id (.ok res), .bodySettled id (.ok body)]

/-- The state in which the promise of `.then(res => res.json())` settles for
an outcome. -/
def Outcome.settles : Outcome → Completion
  | .rejected e => .error e
  | .unread _ e => Response.json (.error e)
  | .received _ body => Response.json (.ok body)

/-- Events that neither call `askQuestion` nor finish a chain: an edit of the
question, and the fulfilment of a `fetch`. -/
def Event.quiet : Event → Bool
  | .input _ => true
  | .fetchSettled _ (.ok _) => true
  | _ => false

/-- A platform and a page to evaluate the model on. -/
def Platform.sample : Platform := { numberToString := fun n => n, isFinite := fun _ => true }

def World.sample : World :=
  { question := some (lit "What is a heap?")
    answer := some []
    nextId := 0
    pending := fun _ => none
    settled := fun _ => none
    effects := [] }

/-! ## `JSON.parse` reads back what `JSON.stringify` writes -/

theorem parseChars_cons (c : Nat) (rest : JSString) :
    parseChars (c :: rest) =
      if c = 0x22 then some ([], rest)
      else if c = 0x5C then
        match rest with
        | [] => none
        | e :: rest2 =>
          if e = 0x75 then
            match rest2 with
            | h1 :: h2 :: h3 :: h4 :: rest3 =>
              match hexVal h1, hexVal h2, hexVal h3, hexVal h4 with
              | some a, some b, some c, some d =>
                (parseChars rest3).map (fun r => ((((a * 16 + b) * 16 + c) * 16 + d) :: r.1, r.2))
              | _, _, _, _ => none
            | _ => none
          else
            match unescape e with
            | some u => (parseChars rest2).map (fun r => (u :: r.1, r.2))
            | none => none
      else if c < 0x20 then none
      else (parseChars rest).map (fun r => (c :: r.1, r.2)) := by
  conv_lhs => rw [parseChars.eq_def]
  rfl

theorem hexVal_hexDigit (d : Nat) (h : d < 16) : hexVal (hexDigit d) = some d := by
  interval_cases d <;> rfl

theorem parseChars_unicodeEscape (u : Nat) (hu : u < 65536) (rest : JSString) :
    parseChars (unicodeEscape u ++ rest) = (parseChars rest).map (fun r => (u :: r.1, r.2)) := by
  have h3 : u / 4096 % 16 < 16 := Nat.mod_lt _ (by decide)
  have h2 : u / 256 % 16 < 16 := Nat.mod_lt _ (by decide)
  have h1 : u / 16 % 16 < 16 := Nat.mod_lt _ (by decide)
  have h0 : u % 16 < 16 := Nat.mod_lt _ (by decide)
  have hval : ((u / 4096 % 16 * 16 + u / 256 % 16) * 16 + u / 16 % 16) * 16 + u % 16 = u := by
    omega
  simp [unicodeEscape, parseChars_cons, hexVal_hexDigit _ h3, hexVal_hexDigit _ h2,
    hexVal_hexDigit _ h1, hexVal_hexDigit _ h0, hval]

theorem parseChars_quoteUnit (c : Nat) (rest : JSString) :
    parseChars (quoteUnit c ++ rest) = (parseChars rest).map (fun r => (c :: r.1, r.2)) := by
  unfold quoteUnit
  split_ifs with h1 h2 h3 h4 h5 h6 h7 h8
  · subst h1; simp [parseChars_cons, unescape]
  · subst h2; simp [parseChars_cons, unescape]
  · subst h3; simp [parseChars_cons, unescape]
  · subst h4; simp [parseChars_cons, unescape]
  · subst h5; simp [parseChars_cons, unescape]
  · subst h6; simp [parseChars_cons, unescape]
  · subst h7; simp [parseChars_cons, unescape]
  · apply parseChars_unicodeEscape
    simp only [isHighSurrogate, isLowSurrogate, decide_eq_true_eq] at h8
    omega
  · have hlt : ¬ c < 0x20 := fun h => h8 (Or.inl h)
    simp [parseChars_cons, h6, h7, hlt]

theorem parseChars_quoteChars (s rest : JSString) :
    parseChars (quoteChars s ++ 0x22 :: rest) = some (s, rest) := by
  induction s using quoteChars.induct with
  | case1 => simp [quoteChars, parseChars_cons]
  | case2 c => simp [quoteChars, parseChars_quoteUnit, parseChars_cons]
  | case3 c d tl h ih =>
    have hc : ¬ c = 0x22 ∧ ¬ c = 0x5C ∧ ¬ c < 0x20 := by
      have := h.1
      simp only [isHighSurrogate, decide_eq_true_eq] at this
      omega
    have hd : ¬ d = 0x22 ∧ ¬ d = 0x5C ∧ ¬ d < 0x20 := by
      have := h.2
      simp only [isLowSurrogate, decide_eq_true_eq] at this
      omega
    simp [quoteChars, h, parseChars_cons, hc, hd, ih]
  | case4 c d tl h ih =>
    simp only [quoteChars, h, if_false, List.append_assoc]
    rw [parseChars_quoteUnit, ih]
    rfl


theorem skipWs_cons_of_not_ws (c : Nat) (rest : JSString) (h : isWs c = false) :
    skipWs (c :: rest) = c :: rest := by
  simp [skipWs, h]

theorem parseValue_object1 (k q : JSString) (f : Nat) :
    parseValue (f + 3) (0x7B :: (quoteJSONString k ++ 0x3A :: quoteJSONString q ++ [0x7D])) =
      some (.obj [(k, .str q)], []) := by
  have hq : parseChars (quoteChars q ++ [0x22, 0x7D]) = some (q, [0x7D]) :=
    parseChars_quoteChars q [0x7D]
  have hk : parseChars (quoteChars k ++ 0x22 :: 0x3A :: 0x22 :: (quoteChars q ++ [0x22, 0x7D])) =
      some (k, 0x3A :: 0x22 :: (quoteChars q ++ [0x22, 0x7D])) :=
    parseChars_quoteChars k _
  simp [parseValue, parseMembers, quoteJSONString, skipWs, isWs, hk, hq, setProp]

theorem parse_stringify_question (P : Platform) (q : JSString) :
    ∃ body, JSON.stringify P (.obj [(lit "question", .str q)]) = some body ∧
      JSON.parse body = .ok (.obj [(lit "question", .str q)]) := by
  refine ⟨0x7B :: (quoteJSONString (lit "question") ++ 0x3A :: quoteJSONString q ++ [0x7D]), ?_, ?_⟩
  · simp [JSON.stringify, serialize, serializeProps, joinWith]
  · unfold JSON.parse
    rw [skipWs_cons_of_not_ws _ _ (by decide)]
    have hlen : ∃ f, 2 * (0x7B :: (quoteJSONString (lit "question") ++
        0x3A :: quoteJSONString q ++ [0x7D])).length + 1 = f + 3 := by
      refine ⟨2 * (quoteJSONString (lit "question") ++ 0x3A :: quoteJSONString q).length + 2, ?_⟩
      simp
      omega
    obtain ⟨f, hf⟩ := hlen
    rw [hf, parseValue_object1]
    simp [skipWs]

/-! ## The chain of one request -/

theorem fragment_thinking :
    renderedTextFragment (lit "Thinking...") = [.text (lit "Thinking...")] := by decide

theorem fragment_error :
    renderedTextFragment (lit "Error occurred.") = [.text (lit "Error occurred.")] := by decide

theorem toDOMString_str (P : Platform) (s : JSString) : toDOMString P (.str s) = .ok s := rfl

theorem assignInnerText_str (P : Platform) (inv : Nat) (s : JSString) (t : List Node) (w : World)
    (ha : w.answer = some t) :
    assignInnerText P inv (.str s) w =
      (.ok .undefined,
       { w with
         answer := some (renderedTextFragment s)
         effects := w.effects ++ [.write inv s] }) := by
  simp [assignInnerText, ha, toDOMString, toStr]

theorem askQuestion_eq (P : Platform) (w : World) (q : JSString) (t : List Node)
    (hq : w.question = some q) (ha : w.answer = some t) :
    askQuestion P w =
      (.ok .undefined,
       { w with
         answer := some [.text (lit "Thinking...")]
         nextId := w.nextId + 1
         pending := Function.update w.pending w.nextId (some .fetching)
         effects := w.effects ++
           [.write w.nextId (lit "Thinking..."),
            .request w.nextId
              { url := lit "/ask"
                method := lit "POST"
                headers := [(lit "Content-Type", lit "application/json")]
                body := JSON.stringify P (.obj [(lit "question", .str q)]) }] }) := by
  simp [askQuestion, hq, assignInnerText_str P _ _ t w ha, fetch, fragment_thinking]

theorem finish_eq (P : Platform) (inv : Nat) (p1 : Completion) (w : World) (t : List Node)
    (ha : w.answer = some t) :
    finish P inv p1 w =
      { w with
        answer := some (renderedTextFragment (shown P p1))
        pending := Function.update w.pending inv none
        settled := Function.update w.settled inv (some (.ok .undefined))
        effects := w.effects ++ [.write inv (shown P p1)] } := by
  cases p1 with
  | error e =>
    simp [finish, thenP, catchP, onError, assignInnerText_str P _ _ t w ha, shown]
  | ok data =>
    simp only [finish, thenP, onData, shown, answerText]
    cases hg : getV data (lit "answer") with
    | error e => simp [catchP, onError, assignInnerText_str P _ _ t w ha]
    | ok value =>
      cases hs : toDOMString P value with
      | error e => simp [assignInnerText, ha, hs, catchP, onError, toDOMString_str]
      | ok text => simp [assignInnerText, ha, hs, catchP]


theorem step_fetch_rejected (P : Platform) (w : World) (id : Nat) (e : JSVal)
    (hp : w.pending id = some .fetching) :
    step P w (.fetchSettled id (.error e)) = finish P id (.error e) w := by
  simp [step, hp]

theorem step_fetch_fulfilled (P : Platform) (w : World) (id : Nat) (res : Response)
    (hp : w.pending id = some .fetching) :
    step P w (.fetchSettled id (.ok res)) =
      { w with pending := Function.update w.pending id (some .reading) } := by
  simp [step, hp]

theorem step_body (P : Platform) (w : World) (id : Nat) (r : Except JSVal JSString)
    (hp : w.pending id = some .reading) :
    step P w (.bodySettled id r) = finish P id (Response.json r) w := by
  simp [step, hp]

theorem effectsOf_append_other (w : World) (id : Nat) (extra : List Effect)
    (h : ∀ x ∈ extra, x.inv ≠ id) (w2 : World) (hw : w2.effects = w.effects ++ extra) :
    effectsOf w2 id = effectsOf w id := by
  simp only [effectsOf, hw, List.filter_append]
  have : extra.filter (fun e => decide (e.inv = id)) = [] := by
    simpa [List.filter_eq_nil_iff] using h
  simp [this]

/-- An event that is not about request `id` leaves its chain and its effects alone. -/
theorem step_frame (P : Platform) (w : World) (e : Event) (id : Nat)
    (ha : w.answer.isSome = true) (hid : id < w.nextId) (he : e.target ≠ some id) :
    (step P w e).answer.isSome = true ∧ id < (step P w e).nextId ∧
      (step P w e).pending id = w.pending id ∧ (step P w e).settled id = w.settled id ∧
      effectsOf (step P w e) id = effectsOf w id := by
  obtain ⟨t, ht⟩ := Option.isSome_iff_exists.mp ha
  have hne : w.nextId ≠ id := by omega
  cases e with
  | input text => simp [step, ha, hid, effectsOf]
  | call =>
    cases hq : w.question with
    | none => simp [step, askQuestion, hq, ha, hid]
    | some q =>
      simp only [step, askQuestion_eq P w q t hq ht]
      refine ⟨by simp, Nat.lt_succ_of_lt hid, ?_, by simp, ?_⟩
      · simp [Function.update, Ne.symm hne]
      · apply effectsOf_append_other w id _ _ _ rfl
        simp [Effect.inv, hne]
  | fetchSettled j r =>
    have hj : j ≠ id := fun h => he (by simp [Event.target, h])
    cases hp : w.pending j with
    | none => simp [step, hp, ha, hid]
    | some s =>
      cases s with
      | reading => simp [step, hp, ha, hid]
      | fetching =>
        cases r with
        | error x =>
          rw [step_fetch_rejected P w j x hp, finish_eq P j _ w t ht]
          refine ⟨rfl, hid, ?_, ?_, ?_⟩
          · simp [Function.update, Ne.symm hj]
          · simp [Function.update, Ne.symm hj]
          · apply effectsOf_append_other w id _ _ _ rfl
            simp [Effect.inv, hj]
        | ok res =>
          rw [step_fetch_fulfilled P w j res hp]
          refine ⟨ha, hid, ?_, rfl, rfl⟩
          simp [Function.update, Ne.symm hj]
  | bodySettled j r =>
    have hj : j ≠ id := fun h => he (by simp [Event.target, h])
    cases hp : w.pending j with
    | none => simp [step, hp, ha, hid]
    | some s =>
      cases s with
      | fetching => simp [step, hp, ha, hid]
      | reading =>
        rw [step_body P w j r hp, finish_eq P j _ w t ht]
        refine ⟨rfl, hid, ?_, ?_, ?_⟩
        · simp [Function.update, Ne.symm hj]
        · simp [Function.update, Ne.symm hj]
        · apply effectsOf_append_other w id _ _ _ rfl
          simp [Effect.inv, hj]

theorem run_frame (P : Platform) (es : List Event) (w : World) (id : Nat)
    (ha : w.answer.isSome = true) (hid : id < w.nextId) (hes : ∀ e ∈ es, e.target ≠ some id) :
    (run P w es).answer.isSome = true ∧ id < (run P w es).nextId ∧
      (run P w es).pending id = w.pending id ∧ (run P w es).settled id = w.settled id ∧
      effectsOf (run P w es) id = effectsOf w id := by
  induction es generalizing w with
  | nil => exact ⟨ha, hid, rfl, rfl, rfl⟩
  | cons e es ih =>
    obtain ⟨h1, h2, h3, h4, h5⟩ := step_frame P w e id ha hid (hes e (List.mem_cons_self _ _))
    obtain ⟨k1, k2, k3, k4, k5⟩ :=
      ih (step P w e) h1 h2 (fun x hx => hes x (List.mem_cons_of_mem _ hx))
    exact ⟨k1, k2, k3.trans h3, k4.trans h4, k5.trans h5⟩

theorem run_append (P : Platform) (w : World) (es1 es2 : List Event) :
    run P w (es1 ++ es2) = run P (run P w es1) es2 := by
  simp [run, List.foldl_append]

theorem run_cons (P : Platform) (w : World) (e : Event) (es : List Event) :
    run P w (e :: es) = run P (step P w e) es := rfl


/-- After its call, and whatever else happens meanwhile, the chain of a
request waits for its `fetch`, having written the placeholder and sent the
request. -/
theorem reach_fetching (P : Platform) (w : World) (q : JSString) (t : List Node)
    (hq : w.question = some q) (ha : w.answer = some t) (es1 : List Event)
    (h1 : ∀ e ∈ es1, e.target ≠ some w.nextId) :
    (run P w (.call :: es1)).answer.isSome = true ∧
      (run P w (.call :: es1)).pending w.nextId = some .fetching ∧
      (run P w (.call :: es1)).settled w.nextId = w.settled w.nextId ∧
      effectsOf (run P w (.call :: es1)) w.nextId = effectsOf w w.nextId ++
        [.write w.nextId (lit "Thinking..."),
         .request w.nextId
           { url := lit "/ask"
             method := lit "POST"
             headers := [(lit "Content-Type", lit "application/json")]
             body := JSON.stringify P (.obj [(lit "question", .str q)]) }] := by
  have hstep := askQuestion_eq P w q t hq ha
  rw [run_cons]
  obtain ⟨k1, _, k3, k4, k5⟩ := run_frame P es1 (step P w .call) w.nextId
    (by simp [step, hstep]) (by simp [step, hstep]) h1
  refine ⟨k1, ?_, ?_, ?_⟩
  · rw [k3]; simp [step, hstep]
  · rw [k4]; simp [step, hstep]
  · rw [k5]; simp [step, hstep, effectsOf, List.filter_append, Effect.inv]

/-- Once its `fetch` is fulfilled, and whatever else happens meanwhile, the
chain waits for the body, and has written nothing more. -/
theorem reach_reading (P : Platform) (w : World) (q : JSString) (t : List Node)
    (hq : w.question = some q) (ha : w.answer = some t) (es1 es2 : List Event)
    (h1 : ∀ e ∈ es1, e.target ≠ some w.nextId) (h2 : ∀ e ∈ es2, e.target ≠ some w.nextId)
    (res : Response) :
    (run P w (.call :: es1 ++ .fetchSettled w.nextId (.ok res) :: es2)).answer.isSome = true ∧
      (run P w (.call :: es1 ++ .fetchSettled w.nextId (.ok res) :: es2)).pending w.nextId =
        some .reading ∧
      (run P w (.call :: es1 ++ .fetchSettled w.nextId (.ok res) :: es2)).settled w.nextId =
        w.settled w.nextId ∧
      effectsOf (run P w (.call :: es1 ++ .fetchSettled w.nextId (.ok res) :: es2)) w.nextId =
        effectsOf w w.nextId ++
        [.write w.nextId (lit "Thinking..."),
         .request w.nextId
           { url := lit "/ask"
             method := lit "POST"
             headers := [(lit "Content-Type", lit "application/json")]
             body := JSON.stringify P (.obj [(lit "question", .str q)]) }] := by
  obtain ⟨f1, f2, f3, f4⟩ := reach_fetching P w q t hq ha es1 h1
  have hlt : w.nextId < (run P w (.call :: es1)).nextId := by
    rw [run_cons]
    exact (run_frame P es1 (step P w .call) w.nextId
      (by simp [step, askQuestion_eq P w q t hq ha])
      (by simp [step, askQuestion_eq P w q t hq ha]) h1).2.1
  rw [show Event.call :: es1 ++ .fetchSettled w.nextId (.ok res) :: es2 =
      (Event.call :: es1) ++ .fetchSettled w.nextId (.ok res) :: es2 from rfl, run_append, run_cons,
    step_fetch_fulfilled P _ _ res f2]
  obtain ⟨k1, _, k3, k4, k5⟩ := run_frame P es2
    { run P w (.call :: es1) with
      pending := Function.update (run P w (.call :: es1)).pending w.nextId (some .reading) }
    w.nextId f1 hlt h2
  refine ⟨k1, ?_, ?_, ?_⟩
  · rw [k3]; simp
  · rw [k4]; exact f3
  · rw [k5]; exact f4

theorem step_requests (P : Platform) (w : World) (e : Event)
    (ha : w.answer.isSome = true) (he : e ≠ .call) :
    (step P w e).answer.isSome = true ∧ requests (step P w e) = requests w := by
  obtain ⟨t, ht⟩ := Option.isSome_iff_exists.mp ha
  cases e with
  | input text => simp [step, ha, requests]
  | call => exact absurd rfl he
  | fetchSettled j r =>
    cases hp : w.pending j with
    | none => simp [step, hp, ha]
    | some s =>
      cases s with
      | reading => simp [step, hp, ha]
      | fetching =>
        cases r with
        | error x =>
          rw [step_fetch_rejected P w j x hp, finish_eq P j _ w t ht]
          simp [requests, List.filterMap_append]
        | ok res =>
          rw [step_fetch_fulfilled P w j res hp]
          exact ⟨ha, rfl⟩
  | bodySettled j r =>
    cases hp : w.pending j with
    | none => simp [step, hp, ha]
    | some s =>
      cases s with
      | fetching => simp [step, hp, ha]
      | reading =>
        rw [step_body P w j r hp, finish_eq P j _ w t ht]
        simp [requests, List.filterMap_append]

theorem run_requests (P : Platform) (es : List Event) (w : World)
    (ha : w.answer.isSome = true) (hes : ∀ e ∈ es, e ≠ Event.call) :
    requests (run P w es) = requests w := by
  induction es generalizing w with
  | nil => rfl
  | cons e es ih =>
    obtain ⟨h1, h2⟩ := step_requests P w e ha (hes e (List.mem_cons_self _ _))
    rw [run_cons, ih (step P w e) h1 (fun x hx => hes x (List.mem_cons_of_mem _ hx)), h2]

theorem step_quiet (P : Platform) (w : World) (e : Event) (he : e.quiet = true) :
    (step P w e).answer = w.answer := by
  cases e with
  | input text => rfl
  | call => simp [Event.quiet] at he
  | fetchSettled j r =>
    cases r with
    | error x => simp [Event.quiet] at he
    | ok res =>
      cases hp : w.pending j with
      | none => simp [step, hp]
      | some s => cases s <;> simp [step, hp]
  | bodySettled j r => simp [Event.quiet] at he

theorem run_quiet (P : Platform) (es : List Event) (w : World)
    (hes : ∀ e ∈ es, e.quiet = true) : (run P w es).answer = w.answer := by
  induction es generalizing w with
  | nil => rfl
  | cons e es ih =>
    rw [run_cons, ih (step P w e) (fun x hx => hes x (List.mem_cons_of_mem _ hx)),
      step_quiet P w e (hes e (List.mem_cons_self _ _))]

/-- C1: with both elements in the document and `Q` the value of the question
input, a call of `askQuestion`, followed by any events that are not further
calls, issues exactly one request: `POST` to `/ask` with the one header
`Content-Type: application/json` and the body `JSON.stringify` gives for the
object with the one property `question` of value `Q`; `JSON.parse` of that
body is that object again.  `Q` is any string, the empty one included. -/
theorem askQuestion_sends_one_request (P : Platform) (w : World) (Q : JSString) (t : List Node)
    (hq : w.question = some Q) (ha : w.answer = some t)
    (es : List Event) (hes : ∀ e ∈ es, e ≠ Event.call) :
    ∃ body, JSON.stringify P (.obj [(lit "question", .str Q)]) = some body ∧
      JSON.parse body = .ok (.obj [(lit "question", .str Q)]) ∧
      requests (run P w (.call :: es)) = requests w ++
        [(w.nextId,
          { url := lit "/ask"
            method := lit "POST"
            headers := [(lit "Content-Type", lit "application/json")]
            body := some body })] := by
  obtain ⟨body, hs, hp⟩ := parse_stringify_question P Q
  refine ⟨body, hs, hp, ?_⟩
  have hstep := askQuestion_eq P w Q t hq ha
  rw [run_cons, run_requests P es (step P w .call) (by simp [step, hstep]) hes]
  simp [step, hstep, requests, List.filterMap_append, hs]

theorem askQuestion_sends_one_request_witness :
    ∃ body, JSON.stringify Platform.sample (.obj [(lit "question", .str [])]) = some body ∧
      JSON.parse body = .ok (.obj [(lit "question", .str [])]) ∧
      requests (run Platform.sample { World.sample with question := some [] }
        [.call, .fetchSettled 0 (.ok ⟨200, []⟩)]) =
        requests { World.sample with question := some [] } ++
        [({ World.sample with question := some [] }.nextId,
          { url := lit "/ask"
            method := lit "POST"
            headers := [(lit "Content-Type", lit "application/json")]
            body := some body })] :=
  askQuestion_sends_one_request Platform.sample { World.sample with question := some [] } [] []
    rfl rfl [.fetchSettled 0 (.ok ⟨200, []⟩)] (by simp)

theorem run_single (P : Platform) (w : World) (e : Event) : run P w [e] = step P w e := rfl

/-- The page after the body of request `w.nextId` has been read, whatever else
happened on the way: the chain is finished with the parsed body. -/
theorem run_to_body (P : Platform) (w : World) (q : JSString) (t : List Node)
    (hq : w.question = some q) (ha : w.answer = some t) (es1 es2 : List Event)
    (h1 : ∀ e ∈ es1, e.target ≠ some w.nextId) (h2 : ∀ e ∈ es2, e.target ≠ some w.nextId)
    (res : Response) (r : Except JSVal JSString) :
    ∃ w2 t2, w2 = run P w (.call :: es1 ++ .fetchSettled w.nextId (.ok res) :: es2) ∧
      w2.answer = some t2 ∧ w2.pending w.nextId = some .reading ∧
      w2.settled w.nextId = w.settled w.nextId ∧
      effectsOf w2 w.nextId = effectsOf w w.nextId ++
        [.write w.nextId (lit "Thinking..."),
         .request w.nextId
           { url := lit "/ask"
             method := lit "POST"
             headers := [(lit "Content-Type", lit "application/json")]
             body := JSON.stringify P (.obj [(lit "question", .str q)]) }] ∧
      run P w (.call :: es1 ++ .fetchSettled w.nextId (.ok res) :: es2 ++
          [.bodySettled w.nextId r]) =
        { w2 with
          answer := some (renderedTextFragment (shown P (Response.json r)))
          pending := Function.update w2.pending w.nextId none
          settled := Function.update w2.settled w.nextId (some (.ok .undefined))
          effects := w2.effects ++ [.write w.nextId (shown P (Response.json r))] } := by
  obtain ⟨f1, f2, f3, f4⟩ := reach_reading P w q t hq ha es1 es2 h1 h2 res
  obtain ⟨t2, ht2⟩ := Option.isSome_iff_exists.mp f1
  refine ⟨_, t2, rfl, ht2, f2, f3, f4, ?_⟩
  rw [show Event.call :: es1 ++ .fetchSettled w.nextId (.ok res) :: es2 ++
      [.bodySettled w.nextId r] =
      (Event.call :: es1 ++ .fetchSettled w.nextId (.ok res) :: es2) ++
      [.bodySettled w.nextId r] by simp, run_append]
  rw [run_single, step_body P _ _ r f2, finish_eq P _ _ _ t2 ht2]

/-- The page after the `fetch` of request `w.nextId` has been rejected. -/
theorem run_to_rejection (P : Platform) (w : World) (q : JSString) (t : List Node)
    (hq : w.question = some q) (ha : w.answer = some t) (es1 : List Event)
    (h1 : ∀ e ∈ es1, e.target ≠ some w.nextId) (e : JSVal) :
    ∃ w1 t1, w1 = run P w (.call :: es1) ∧
      w1.answer = some t1 ∧ w1.pending w.nextId = some .fetching ∧
      w1.settled w.nextId = w.settled w.nextId ∧
      effectsOf w1 w.nextId = effectsOf w w.nextId ++
        [.write w.nextId (lit "Thinking..."),
         .request w.nextId
           { url := lit "/ask"
             method := lit "POST"
             headers := [(lit "Content-Type", lit "application/json")]
             body := JSON.stringify P (.obj [(lit "question", .str q)]) }] ∧
      run P w (.call :: es1 ++ [.fetchSettled w.nextId (.error e)]) =
        { w1 with
          answer := some [.text (lit "Error occurred.")]
          pending := Function.update w1.pending w.nextId none
          settled := Function.update w1.settled w.nextId (some (.ok .undefined))
          effects := w1.effects ++ [.write w.nextId (lit "Error occurred.")] } := by
  obtain ⟨f1, f2, f3, f4⟩ := reach_fetching P w q t hq ha es1 h1
  obtain ⟨t1, ht1⟩ := Option.isSome_iff_exists.mp f1
  refine ⟨_, t1, rfl, ht1, f2, f3, f4, ?_⟩
  rw [show Event.call :: es1 ++ [.fetchSettled w.nextId (.error e)] =
      (Event.call :: es1) ++ [.fetchSettled w.nextId (.error e)] from rfl, run_append]
  rw [run_single, step_fetch_rejected P _ _ e f2, finish_eq P _ _ _ t1 ht1]
  rfl

/-! ## The bound of the parser -/

theorem skipWs_length (s : JSString) : (skipWs s).length ≤ s.length := by
  induction s with
  | nil => simp [skipWs]
  | cons c rest ih =>
    simp only [skipWs]
    split_ifs
    · simp only [List.length_cons]; omega
    · exact le_refl _

theorem map_cons_length {c : Nat} {o : Option (JSString × JSString)} {k r : JSString}
    (h : o.map (fun p => (c :: p.1, p.2)) = some (k, r)) : ∃ k2, o = some (k2, r) := by
  cases o with
  | none => simp at h
  | some p =>
    obtain ⟨p1, p2⟩ := p
    simp only [Option.map_some', Option.some.injEq, Prod.mk.injEq] at h
    exact ⟨p1, by rw [h.2]⟩

theorem parseChars_length (n : Nat) : ∀ (s k r : JSString), s.length ≤ n →
    parseChars s = some (k, r) → r.length < s.length := by
  induction n with
  | zero =>
    intro s k r hn h
    cases s with
    | nil => simp [parseChars] at h
    | cons c rest => simp at hn
  | succ n ih =>
    intro s k r hn h
    cases s with
    | nil => simp [parseChars] at h
    | cons c rest =>
      rw [parseChars_cons] at h
      simp only [List.length_cons] at hn ⊢
      split_ifs at h
      · simp only [Option.some.injEq, Prod.mk.injEq] at h
        rw [← h.2]; omega
      · cases rest with
        | nil => simp at h
        | cons e rest2 =>
          simp only [List.length_cons] at hn ⊢
          simp only at h
          split_ifs at h
          · match rest2, h with
            | [], h => simp at h
            | [_], h => simp at h
            | [_, _], h => simp at h
            | [_, _, _], h => simp at h
            | h1 :: h2 :: h3 :: h4 :: rest3, h =>
              simp only at h
              split at h
              · obtain ⟨k2, hk⟩ := map_cons_length h
                have := ih rest3 k2 r (by simp only [List.length_cons] at hn; omega) hk
                simp only [List.length_cons]; omega
              · simp at h
          · split at h
            · obtain ⟨k2, hk⟩ := map_cons_length h
              have := ih rest2 k2 r (by omega) hk
              omega
            · simp at h
      · obtain ⟨k2, hk⟩ := map_cons_length h
        have := ih rest k2 r (by omega) hk
        omega


theorem span_snd_length (p : Nat → Bool) (s : JSString) : (s.span p).2.length ≤ s.length := by
  rw [List.span_eq_take_drop]
  exact (List.dropWhile_sublist p).length_le

theorem digits1_length (s ds r : JSString) (h : digits1 s = some (ds, r)) :
    r.length ≤ s.length := by
  unfold digits1 at h
  have hs := span_snd_length isDigit s
  split at h
  · simp at h
  · rename_i ds2 rest2 _ heq
    simp only [Option.some.injEq, Prod.mk.injEq] at h
    rw [heq] at hs
    rw [← h.2]; exact hs

theorem parseInt_length (s i r : JSString) (h : parseInt s = some (i, r)) :
    r.length < s.length := by
  unfold parseInt at h
  cases s with
  | nil => simp at h
  | cons d rest =>
    simp only at h
    split_ifs at h
    · simp only [Option.some.injEq, Prod.mk.injEq] at h
      rw [← h.2]; simp
    · simp only [Option.some.injEq, Prod.mk.injEq] at h
      have := span_snd_length isDigit rest
      rw [← h.2]; simp only [List.length_cons]; omega

theorem parseFrac_length (s f r : JSString) (h : parseFrac s = some (f, r)) :
    r.length ≤ s.length := by
  unfold parseFrac at h
  cases s with
  | nil => simp only [Option.some.injEq, Prod.mk.injEq] at h; rw [← h.2]
  | cons c rest =>
    simp only at h
    split_ifs at h
    · obtain ⟨k2, hk⟩ := map_cons_length h
      have := digits1_length _ _ _ hk
      simp only [List.length_cons]; omega
    · simp only [Option.some.injEq, Prod.mk.injEq] at h; rw [← h.2]

theorem parseExp_length (s f r : JSString) (h : parseExp s = some (f, r)) :
    r.length ≤ s.length := by
  unfold parseExp at h
  cases s with
  | nil => simp only [Option.some.injEq, Prod.mk.injEq] at h; rw [← h.2]
  | cons c rest =>
    simp only at h
    split_ifs at h
    · cases rest with
      | nil => simp at h
      | cons s2 rest2 =>
        simp only at h
        split_ifs at h
        · cases hd : digits1 rest2 with
          | none => simp [hd] at h
          | some p =>
            obtain ⟨p1, p2⟩ := p
            simp only [hd, Option.map_some', Option.some.injEq, Prod.mk.injEq] at h
            have := digits1_length _ _ _ hd
            rw [← h.2]; simp only [List.length_cons]; omega
        · obtain ⟨k2, hk⟩ := map_cons_length h
          have := digits1_length _ _ _ hk
          simp only [List.length_cons] at this ⊢; omega
    · simp only [Option.some.injEq, Prod.mk.injEq] at h; rw [← h.2]

theorem parseNumber_length (s n r : JSString) (h : parseNumber s = some (n, r)) :
    r.length < s.length := by
  unfold parseNumber at h
  simp only at h
  have hsigned : (match s with
      | c :: rest => if c = 0x2D then ([c], rest) else (([] : JSString), s)
      | [] => (([] : JSString), s)).2.length ≤ s.length := by
    cases s with
    | nil => simp
    | cons c rest =>
      simp only
      split_ifs <;> simp
  generalize (match s with
      | c :: rest => if c = 0x2D then ([c], rest) else (([] : JSString), s)
      | [] => (([] : JSString), s)) = signed at h hsigned
  cases hi : parseInt signed.2 with
  | none => simp [hi] at h
  | some p1 =>
    obtain ⟨int, r1⟩ := p1
    simp only [hi] at h
    cases hf : parseFrac r1 with
    | none => simp [hf] at h
    | some p2 =>
      obtain ⟨frac, r2⟩ := p2
      simp only [hf] at h
      cases he : parseExp r2 with
      | none => simp [he] at h
      | some p3 =>
        obtain ⟨exp, r3⟩ := p3
        simp only [he, Option.some.injEq, Prod.mk.injEq] at h
        have a1 := parseInt_length _ _ _ hi
        have a2 := parseFrac_length _ _ _ hf
        have a3 := parseExp_length _ _ _ he
        rw [← h.2]; omega

theorem expect_length (w s r : JSString) (h : expect w s = some r) : r.length ≤ s.length := by
  induction w generalizing s with
  | nil =>
    simp only [expect, Option.some.injEq] at h
    rw [h]
  | cons a w ih =>
    cases s with
    | nil => simp [expect] at h
    | cons c rest =>
      simp only [expect] at h
      split_ifs at h
      have := ih rest h
      simp only [List.length_cons]; omega

theorem map_pair_rest {α β : Type} {f : α → β} {o : Option (α × JSString)} {v : β}
    {r : JSString} (h : o.map (fun p => (f p.1, p.2)) = some (v, r)) : ∃ k2, o = some (k2, r) := by
  cases o with
  | none => simp at h
  | some p =>
    obtain ⟨p1, p2⟩ := p
    simp only [Option.map_some', Option.some.injEq, Prod.mk.injEq] at h
    exact ⟨p1, by rw [h.2]⟩

theorem map_const_rest {β : Type} {b : β} {o : Option JSString} {v : β}
    {r : JSString} (h : o.map (fun p => (b, p)) = some (v, r)) : o = some r := by
  cases o with
  | none => simp at h
  | some p =>
    simp only [Option.map_some', Option.some.injEq, Prod.mk.injEq] at h
    rw [h.2]

/-- Every successful parse consumes input. -/
theorem parse_length (fuel : Nat) :
    (∀ s v r, parseValue fuel s = some (v, r) → r.length < s.length) ∧
    (∀ acc s v r, parseMembers fuel acc s = some (v, r) → r.length < s.length) ∧
    (∀ acc s v r, parseElements fuel acc s = some (v, r) → r.length < s.length) := by
  induction fuel with
  | zero =>
    refine ⟨?_, ?_, ?_⟩
    · intro s v r h; simp [parseValue] at h
    · intro acc s v r h; simp [parseMembers] at h
    · intro acc s v r h; simp [parseElements] at h
  | succ n ih =>
    obtain ⟨ihv, ihm, ihe⟩ := ih
    refine ⟨?_, ?_, ?_⟩
    · intro s v r h
      cases s with
      | nil => simp [parseValue] at h
      | cons c rest =>
        simp only [parseValue] at h
        simp only [List.length_cons]
        have hws := skipWs_length rest
        split_ifs at h
        · cases hsk : skipWs rest with
          | nil => simp [hsk] at h
          | cons d rest2 =>
            rw [hsk] at hws
            simp only [hsk] at h
            simp only [List.length_cons] at hws
            split_ifs at h
            · simp only [Option.some.injEq, Prod.mk.injEq] at h
              rw [← h.2]; omega
            · have := ihm _ _ _ _ h
              simp only [List.length_cons] at this; omega
        · cases hsk : skipWs rest with
          | nil => simp [hsk] at h
          | cons d rest2 =>
            rw [hsk] at hws
            simp only [hsk] at h
            simp only [List.length_cons] at hws
            split_ifs at h
            · simp only [Option.some.injEq, Prod.mk.injEq] at h
              rw [← h.2]; omega
            · have := ihe _ _ _ _ h
              simp only [List.length_cons] at this; omega
        · obtain ⟨k2, hk⟩ := map_pair_rest h
          have := parseChars_length _ _ _ _ (le_refl _) hk
          omega
        · have := expect_length _ _ _ (map_const_rest h); omega
        · have := expect_length _ _ _ (map_const_rest h); omega
        · have := expect_length _ _ _ (map_const_rest h); omega
        · obtain ⟨k2, hk⟩ := map_pair_rest h
          have := parseNumber_length _ _ _ hk
          simpa using this
    · intro acc s v r h
      cases s with
      | nil => simp [parseMembers] at h
      | cons c rest =>
        simp only [parseMembers] at h
        simp only [List.length_cons]
        split_ifs at h
        cases hpc : parseChars rest with
        | none => simp [hpc] at h
        | some p =>
          obtain ⟨key, r1⟩ := p
          simp only [hpc] at h
          have l1 := parseChars_length _ _ _ _ (le_refl _) hpc
          have l2 := skipWs_length r1
          cases hsk : skipWs r1 with
          | nil => simp [hsk] at h
          | cons colon r2 =>
            rw [hsk] at l2
            simp only [hsk] at h
            simp only [List.length_cons] at l2
            split_ifs at h
            have l3 := skipWs_length r2
            cases hv : parseValue n (skipWs r2) with
            | none => simp [hv] at h
            | some q =>
              obtain ⟨val, r3⟩ := q
              simp only [hv] at h
              have l4 := ihv _ _ _ hv
              have l5 := skipWs_length r3
              cases hsk3 : skipWs r3 with
              | nil => simp [hsk3] at h
              | cons d r4 =>
                rw [hsk3] at l5
                simp only [hsk3] at h
                simp only [List.length_cons] at l5
                split_ifs at h
                · simp only [Option.some.injEq, Prod.mk.injEq] at h
                  rw [← h.2]; omega
                · have l6 := ihm _ _ _ _ h
                  have l7 := skipWs_length r4
                  omega
    · intro acc s v r h
      simp only [parseElements] at h
      cases hv : parseValue n s with
      | none => simp [hv] at h
      | some q =>
        obtain ⟨val, r1⟩ := q
        simp only [hv] at h
        have l1 := ihv _ _ _ hv
        have l2 := skipWs_length r1
        cases hsk : skipWs r1 with
        | nil => simp [hsk] at h
        | cons d r2 =>
          rw [hsk] at l2
          simp only [hsk] at h
          simp only [List.length_cons] at l2
          split_ifs at h
          · simp only [Option.some.injEq, Prod.mk.injEq] at h
            rw [← h.2]; omega
          · have l3 := ihe _ _ _ _ h
            have l4 := skipWs_length r2
            omega

theorem parseElements_succ (f : Nat) (acc : List JSVal) (s : JSString) :
    parseElements (f + 1) acc s =
      match parseValue f s with
      | none => none
      | some (v, r1) =>
        match skipWs r1 with
        | [] => none
        | d :: r2 =>
          if d = 0x5D then some (.arr (acc ++ [v]), r2)
          else if d = 0x2C then parseElements f (acc ++ [v]) (skipWs r2)
          else none := by
  rw [parseElements]

/-- With fuel above twice the length of the input, one more unit of fuel changes nothing. -/
theorem parse_fuel_succ (f : Nat) :
    (∀ s, 2 * s.length + 1 ≤ f → parseValue (f + 1) s = parseValue f s) ∧
    (∀ acc s, 2 * s.length + 1 ≤ f → parseMembers (f + 1) acc s = parseMembers f acc s) ∧
    (∀ acc s, 2 * s.length + 2 ≤ f → parseElements (f + 1) acc s = parseElements f acc s) := by
  induction f with
  | zero =>
    refine ⟨?_, ?_, ?_⟩
    · intro s h; omega
    · intro acc s h; omega
    · intro acc s h; omega
  | succ n ih =>
    obtain ⟨ihv, ihm, ihe⟩ := ih
    refine ⟨?_, ?_, ?_⟩
    · intro s hs
      cases s with
      | nil => simp [parseValue]
      | cons c rest =>
        simp only [List.length_cons] at hs
        have hws := skipWs_length rest
        simp only [parseValue]
        cases hsk : skipWs rest with
        | nil => rfl
        | cons d rest2 =>
          rw [hsk] at hws
          simp only [List.length_cons] at hws
          dsimp only
          rw [ihm [] (d :: rest2) (by simp only [List.length_cons]; omega),
            ihe [] (d :: rest2) (by simp only [List.length_cons]; omega)]
    · intro acc s hs
      cases s with
      | nil => simp [parseMembers]
      | cons c rest =>
        simp only [List.length_cons] at hs
        simp only [parseMembers]
        split_ifs
        · cases hpc : parseChars rest with
          | none => rfl
          | some p =>
            obtain ⟨key, r1⟩ := p
            have l1 := parseChars_length _ _ _ _ (le_refl _) hpc
            have l2 := skipWs_length r1
            simp only
            cases hsk : skipWs r1 with
            | nil => rfl
            | cons colon r2 =>
              rw [hsk] at l2
              simp only [List.length_cons] at l2
              have l3 := skipWs_length r2
              simp only
              split_ifs
              · rw [ihv (skipWs r2) (by omega)]
                cases hv : parseValue n (skipWs r2) with
                | none => rfl
                | some q =>
                  obtain ⟨val, r3⟩ := q
                  have l4 := (parse_length n).1 _ _ _ hv
                  have l5 := skipWs_length r3
                  simp only
                  cases hsk3 : skipWs r3 with
                  | nil => rfl
                  | cons d r4 =>
                    rw [hsk3] at l5
                    simp only [List.length_cons] at l5
                    have l6 := skipWs_length r4
                    simp only
                    rw [ihm _ (skipWs r4) (by omega)]
              · rfl
        · rfl
    · intro acc s hs
      rw [parseElements_succ (n + 1) acc s, parseElements_succ n acc s, ihv s (by omega)]
      cases hv : parseValue n s with
      | none => rfl
      | some q =>
        obtain ⟨val, r1⟩ := q
        have l1 := (parse_length n).1 _ _ _ hv
        have l2 := skipWs_length r1
        simp only
        cases hsk : skipWs r1 with
        | nil => rfl
        | cons d r2 =>
          rw [hsk] at l2
          simp only [List.length_cons] at l2
          have l3 := skipWs_length r2
          dsimp only
          rw [ihe _ (skipWs r2) (by omega)]

/-- The bound `JSON.parse` passes is never reached: every larger bound gives
the same result. -/
theorem parseValue_fuel (s : JSString) (f : Nat) (h : 2 * s.length + 1 ≤ f) :
    parseValue f s = parseValue (2 * s.length + 1) s := by
  induction f with
  | zero => omega
  | succ n ih =>
    by_cases hn : 2 * s.length + 1 ≤ n
    · rw [(parse_fuel_succ n).1 s hn, ih hn]
    · have : n + 1 = 2 * s.length + 1 := by omega
      rw [this]

theorem parseValue_fuel_witness :
    parseValue 100 (lit "[[1,2],[3]]") = parseValue (2 * (lit "[[1,2],[3]]").length + 1)
      (lit "[[1,2],[3]]") :=
  parseValue_fuel (lit "[[1,2],[3]]") 100 (by decide)

/-- The result of `JSON.parse` does not depend on its bound: every bound
above twice the length of the text gives it. -/
theorem jsonParse_fuel (text : JSString) (f : Nat) (h : 2 * text.length + 1 ≤ f) :
    JSON.parse text =
      match parseValue f (skipWs text) with
      | none => .error syntaxError
      | some (v, rest) => if skipWs rest = [] then .ok v else .error syntaxError := by
  have hws := skipWs_length text
  unfold JSON.parse
  rw [parseValue_fuel (skipWs text) f (by omega),
    parseValue_fuel (skipWs text) (2 * text.length + 1) (by omega)]

/-! ## The rendered text fragment -/

theorem textContent_append (xs ys : List Node) :
    textContent (xs ++ ys) = textContent xs ++ textContent ys := by
  induction xs with
  | nil => rfl
  | cons x xs ih => cases x <;> simp [textContent, ih]

theorem textContent_flushRun (run : JSString) : textContent (flushRun run) = run := by
  unfold flushRun
  split_ifs with h
  · simp [textContent, h]
  · simp [textContent]

/-- The text content of a rendered text fragment is the string without its
LF and CR. -/
theorem textContent_fragmentFrom (s run : JSString) :
    textContent (fragmentFrom run s) =
      run ++ s.filter (fun c => decide (c ≠ 0x0A ∧ c ≠ 0x0D)) := by
  induction run, s using fragmentFrom.induct with
  | case1 run => simp [fragmentFrom, textContent_flushRun]
  | case2 run c h =>
    rcases h with h | h <;>
      simp [fragmentFrom, h, textContent_append, textContent_flushRun, textContent]
  | case3 run c h =>
    have h1 : c ≠ 0x0A := fun hc => h (Or.inl hc)
    have h2 : c ≠ 0x0D := fun hc => h (Or.inr hc)
    simp [fragmentFrom, h, textContent_flushRun, h1, h2]
  | case4 run c d rest h ih =>
    simp [fragmentFrom, h, textContent_append, textContent_flushRun, textContent, ih]
  | case5 run c d rest h1 h2 ih =>
    have hf : (c :: d :: rest).filter (fun c => decide (c ≠ 0x0A ∧ c ≠ 0x0D)) =
        (d :: rest).filter (fun c => decide (c ≠ 0x0A ∧ c ≠ 0x0D)) := by
      rcases h2 with h2 | h2 <;> simp [List.filter, h2]
    rw [hf]
    simp only [fragmentFrom, h1, h2, if_false, if_true, textContent_append,
      textContent_flushRun, textContent, ih, List.nil_append]
  | case6 run c d rest h1 h2 ih =>
    have k1 : c ≠ 0x0A := fun hc => h2 (Or.inl hc)
    have k2 : c ≠ 0x0D := fun hc => h2 (Or.inr hc)
    have hf : (c :: d :: rest).filter (fun c => decide (c ≠ 0x0A ∧ c ≠ 0x0D)) =
        c :: (d :: rest).filter (fun c => decide (c ≠ 0x0A ∧ c ≠ 0x0D)) := by
      simp [List.filter, k1, k2]
    rw [hf]
    simp only [fragmentFrom, h1, h2, if_false, ih, List.append_assoc, List.singleton_append]

theorem textContent_renderedTextFragment (s : JSString) :
    textContent (renderedTextFragment s) = s.filter (fun c => decide (c ≠ 0x0A ∧ c ≠ 0x0D)) := by
  simp [renderedTextFragment, textContent_fragmentFrom]

/-- A string without LF and CR becomes one text node (none when empty). -/
theorem fragmentFrom_no_break (s run : JSString) (h : ∀ c ∈ s, c ≠ 0x0A ∧ c ≠ 0x0D) :
    fragmentFrom run s = flushRun (run ++ s) := by
  induction run, s using fragmentFrom.induct with
  | case1 run => simp [fragmentFrom]
  | case2 run c hc =>
    have := h c (List.mem_singleton.mpr rfl)
    rcases hc with hc | hc
    · exact absurd hc this.1
    · exact absurd hc this.2
  | case3 run c hc => simp [fragmentFrom, hc]
  | case4 run c d rest hc ih =>
    have := h c (List.mem_cons_self _ _)
    exact absurd hc.1 this.2
  | case5 run c d rest h1 hc ih =>
    have := h c (List.mem_cons_self _ _)
    rcases hc with hc | hc
    · exact absurd hc this.1
    · exact absurd hc this.2
  | case6 run c d rest h1 h2 ih =>
    simp only [fragmentFrom, h1, h2, if_false]
    rw [ih (fun x hx => h x (List.mem_cons_of_mem _ hx))]
    simp

/-- A string with an LF or a CR gets a `<br>` element. -/
theorem br_mem_fragmentFrom (s run : JSString) (c : Nat) (hc : c ∈ s)
    (hbreak : c = 0x0A ∨ c = 0x0D) : Node.br ∈ fragmentFrom run s := by
  induction run, s using fragmentFrom.induct with
  | case1 run => simp at hc
  | case2 run x hx => simp [fragmentFrom, hx]
  | case3 run x hx =>
    have : c = x := List.mem_singleton.mp hc
    subst this
    exact absurd hbreak hx
  | case4 run x d rest hx ih => simp [fragmentFrom, hx]
  | case5 run x d rest h1 hx ih => simp [fragmentFrom, h1, hx]
  | case6 run x d rest h1 h2 ih =>
    simp only [fragmentFrom, h1, h2, if_false]
    rcases List.mem_cons.mp hc with h | h
    · subst h; exact absurd hbreak h2
    · exact ih h

/-- Only the string `t` itself renders as the one text node `t`. -/
theorem renderedTextFragment_eq_text (s t : JSString)
    (h : renderedTextFragment s = [.text t]) : s = t := by
  have hno : ∀ c ∈ s, c ≠ 0x0A ∧ c ≠ 0x0D := by
    intro c hc
    by_contra hcon
    have hbreak : c = 0x0A ∨ c = 0x0D := by
      by_cases h1 : c = 0x0A
      · exact Or.inl h1
      · by_cases h2 : c = 0x0D
        · exact Or.inr h2
        · exact absurd ⟨h1, h2⟩ hcon
    have := br_mem_fragmentFrom s [] c hc hbreak
    rw [show fragmentFrom [] s = [Node.text t] from h] at this
    simp at this
  have := fragmentFrom_no_break s [] hno
  rw [show fragmentFrom [] s = [Node.text t] from h] at this
  simp only [List.nil_append, flushRun] at this
  split_ifs at this with he
  simp only [List.cons.injEq, Node.text.injEq, and_true] at this
  exact this.symm

theorem fragment_examples :
    renderedTextFragment (lit "42") = [.text (lit "42")] ∧
      renderedTextFragment [] = [] ∧
      renderedTextFragment (lit "a\rb\r\nc\n\nd\n") =
        [.text (lit "a"), .br, .text (lit "b"), .br, .text (lit "c"), .br, .br,
         .text (lit "d"), .br] := by decide

/-- C3: when the promise of `fetch` is rejected, with whatever value, the
text of the `answer` element is the literal `Error occurred.`, and the page is
the same for any two rejection values: nothing of the error is kept. -/
theorem fetch_rejection_shows_error (P : Platform) (w : World) (Q : JSString) (t : List Node)
    (hq : w.question = some Q) (ha : w.answer = some t) (es1 : List Event)
    (h1 : ∀ e ∈ es1, e.target ≠ some w.nextId) (e e2 : JSVal) :
    (run P w (.call :: es1 ++ [.fetchSettled w.nextId (.error e)])).answer =
        some [.text (lit "Error occurred.")] ∧
      run P w (.call :: es1 ++ [.fetchSettled w.nextId (.error e)]) =
        run P w (.call :: es1 ++ [.fetchSettled w.nextId (.error e2)]) := by
  obtain ⟨w1, t1, hw1, _, _, _, _, hrun⟩ := run_to_rejection P w Q t hq ha es1 h1 e
  obtain ⟨w1b, t1b, hw1b, _, _, _, _, hrun2⟩ := run_to_rejection P w Q t hq ha es1 h1 e2
  subst hw1 hw1b
  exact ⟨by rw [hrun], by rw [hrun, hrun2]⟩

theorem fetch_rejection_shows_error_witness :
    (run Platform.sample World.sample
        (.call :: [.input (lit "next")] ++
          [.fetchSettled World.sample.nextId (.error typeError)])).answer =
        some [.text (lit "Error occurred.")] ∧
      run Platform.sample World.sample
        (.call :: [.input (lit "next")] ++
          [.fetchSettled World.sample.nextId (.error typeError)]) =
        run Platform.sample World.sample
        (.call :: [.input (lit "next")] ++
          [.fetchSettled World.sample.nextId (.error (.str (lit "connection refused")))]) :=
  fetch_rejection_shows_error Platform.sample World.sample (lit "What is a heap?") [] rfl rfl
    [.input (lit "next")] (by simp [Event.target]) typeError (.str (lit "connection refused"))

/-- C4: when the body of the response is not valid JSON, so that `JSON.parse`
throws in `res.json()`, the text of the `answer` element is the literal
`Error occurred.`. -/
theorem invalid_json_shows_error (P : Platform) (w : World) (Q : JSString) (t : List Node)
    (hq : w.question = some Q) (ha : w.answer = some t) (es1 es2 : List Event)
    (h1 : ∀ e ∈ es1, e.target ≠ some w.nextId) (h2 : ∀ e ∈ es2, e.target ≠ some w.nextId)
    (res : Response) (body : JSString) (x : JSVal)
    (hparse : JSON.parse body = .error x) :
    (run P w (.call :: es1 ++ .fetchSettled w.nextId (.ok res) :: es2 ++
      [.bodySettled w.nextId (.ok body)])).answer = some [.text (lit "Error occurred.")] := by
  obtain ⟨w2, t2, _, _, _, _, _, hrun⟩ :=
    run_to_body P w Q t hq ha es1 es2 h1 h2 res (.ok body)
  rw [hrun]
  simp [shown, Response.json, hparse, fragment_error]

theorem invalid_json_shows_error_witness :
    (run Platform.sample World.sample
      (.call :: [] ++ .fetchSettled World.sample.nextId (.ok ⟨200, []⟩) :: [] ++
        [.bodySettled World.sample.nextId (.ok (lit "<html>502 Bad Gateway</html>"))])).answer =
      some [.text (lit "Error occurred.")] :=
  invalid_json_shows_error Platform.sample World.sample (lit "What is a heap?") [] rfl rfl
    [] [] (by simp) (by simp) ⟨200, []⟩ (lit "<html>502 Bad Gateway</html>") syntaxError rfl

theorem parse_ne_undefined (fuel : Nat) :
    (∀ s v r, parseValue fuel s = some (v, r) → v ≠ .undefined) ∧
    (∀ acc s v r, parseMembers fuel acc s = some (v, r) → v ≠ .undefined) ∧
    (∀ acc s v r, parseElements fuel acc s = some (v, r) → v ≠ .undefined) := by
  induction fuel with
  | zero =>
    refine ⟨?_, ?_, ?_⟩
    · intro s v r h; simp [parseValue] at h
    · intro acc s v r h; simp [parseMembers] at h
    · intro acc s v r h; simp [parseElements] at h
  | succ n ih =>
    obtain ⟨ihv, ihm, ihe⟩ := ih
    refine ⟨?_, ?_, ?_⟩
    · intro s v r h
      cases s with
      | nil => simp [parseValue] at h
      | cons c rest =>
        simp only [parseValue] at h
        split_ifs at h
        · split at h
          · simp at h
          · split_ifs at h
            · simp at h; rw [← h.1]; simp
            · exact ihm _ _ _ _ h
        · split at h
          · simp at h
          · split_ifs at h
            · simp at h; rw [← h.1]; simp
            · exact ihe _ _ _ _ h
        all_goals
          simp only [Option.map_eq_some', Prod.mk.injEq] at h
          obtain ⟨a, _, h2, _⟩ := h
          rw [← h2]; simp
    · intro acc s v r h
      cases s with
      | nil => simp [parseMembers] at h
      | cons c rest =>
        simp only [parseMembers] at h
        split_ifs at h
        · split at h
          · simp at h
          · split at h
            · simp at h
            · split_ifs at h
              · split at h
                · simp at h
                · split at h
                  · simp at h
                  · split_ifs at h
                    · simp at h; rw [← h.1]; simp
                    · exact ihm _ _ _ _ h
    · intro acc s v r h
      simp only [parseElements] at h
      split at h
      · simp at h
      · split at h
        · simp at h
        · split_ifs at h
          · simp at h; rw [← h.1]; simp
          · exact ihe _ _ _ _ h

theorem jsonParse_ne_undefined (text : JSString) (v : JSVal) (h : JSON.parse text = .ok v) :
    v ≠ .undefined := by
  unfold JSON.parse at h
  split at h
  · simp at h
  · split_ifs at h
    · rename_i v2 rest heq _
      have := (parse_ne_undefined _).1 _ _ _ heq
      simp at h
      rw [← h]; exact this

/-- C5, as the claim states it, fails: the body `\x7b\x7d` parses as an object
without a property `answer`, and the text of the `answer` element ends as
`undefined`, not as `Error occurred.`. -/
theorem missing_answer_not_an_error :
    JSON.parse (lit "\x7b\x7d") = .ok (.obj []) ∧
      lookupProp (lit "answer") [] = none ∧
      (run Platform.sample World.sample
        [.call, .fetchSettled 0 (.ok ⟨200, []⟩), .bodySettled 0 (.ok (lit "\x7b\x7d"))]).answer =
        some [.text (lit "undefined")] ∧
      (run Platform.sample World.sample
        [.call, .fetchSettled 0 (.ok ⟨200, []⟩), .bodySettled 0 (.ok (lit "\x7b\x7d"))]).answer ≠
        some [.text (lit "Error occurred.")] :=
  ⟨rfl, rfl, rfl, by decide⟩

/-- C5, amended: when the body of the response parses as a JSON value other
than `null` that has no property `answer` (an object without that key, or an
array, string, number or boolean), the success handler assigns the missing
property and the text of the `answer` element is the literal `undefined`. -/
theorem missing_answer_shows_undefined (P : Platform) (w : World) (Q : JSString) (t : List Node)
    (hq : w.question = some Q) (ha : w.answer = some t) (es1 es2 : List Event)
    (h1 : ∀ e ∈ es1, e.target ≠ some w.nextId) (h2 : ∀ e ∈ es2, e.target ≠ some w.nextId)
    (res : Response) (body : JSString) (data : JSVal)
    (hparse : JSON.parse body = .ok data) (hnull : data ≠ .null)
    (hlack : ∀ props, data = .obj props → lookupProp (lit "answer") props = none) :
    (run P w (.call :: es1 ++ .fetchSettled w.nextId (.ok res) :: es2 ++
      [.bodySettled w.nextId (.ok body)])).answer = some [.text (lit "undefined")] := by
  obtain ⟨w2, t2, _, _, _, _, _, hrun⟩ :=
    run_to_body P w Q t hq ha es1 es2 h1 h2 res (.ok body)
  rw [hrun]
  have hundef := jsonParse_ne_undefined body data hparse
  have htext : answerText P data = .ok (lit "undefined") := by
    cases data with
    | undefined => exact absurd rfl hundef
    | null => exact absurd rfl hnull
    | obj props => simp [answerText, getV, hlack props rfl, toDOMString, toStr]
    | _ => simp [answerText, getV, toDOMString, toStr]
  have hfrag : renderedTextFragment (lit "undefined") = [.text (lit "undefined")] := by decide
  simp [shown, Response.json, hparse, htext, hfrag]

theorem missing_answer_shows_undefined_witness :
    (run Platform.sample World.sample
      (.call :: [] ++ .fetchSettled World.sample.nextId (.ok ⟨200, []⟩) :: [] ++
        [.bodySettled World.sample.nextId (.ok (lit "\x7b\"reply\": \"42\"\x7d"))])).answer =
      some [.text (lit "undefined")] :=
  missing_answer_shows_undefined Platform.sample World.sample (lit "What is a heap?") [] rfl rfl
    [] [] (by simp) (by simp) ⟨200, []⟩ (lit "\x7b\"reply\": \"42\"\x7d")
    (.obj [(lit "reply", .str (lit "42"))]) rfl (by simp)
    (by intro props h; cases h; rfl)

theorem step_quiet_pending (P : Platform) (w : World) (e : Event) (id : Nat)
    (he : e.quiet = true) (hp : (w.pending id).isSome = true) :
    ((step P w e).pending id).isSome = true := by
  cases e with
  | input text => exact hp
  | call => simp [Event.quiet] at he
  | fetchSettled j r =>
    cases r with
    | error x => simp [Event.quiet] at he
    | ok res =>
      cases hj : w.pending j with
      | none => simpa [step, hj] using hp
      | some s =>
        cases s with
        | reading => simpa [step, hj] using hp
        | fetching =>
          rw [step_fetch_fulfilled P w j res hj]
          by_cases hid : id = j
          · subst hid; simp
          · simpa [Function.update, hid] using hp
  | bodySettled j r => simp [Event.quiet] at he

theorem run_quiet_pending (P : Platform) (es : List Event) (w : World) (id : Nat)
    (hes : ∀ e ∈ es, e.quiet = true) (hp : (w.pending id).isSome = true) :
    ((run P w es).pending id).isSome = true := by
  induction es generalizing w with
  | nil => exact hp
  | cons e es ih =>
    rw [run_cons]
    exact ih (step P w e) (fun x hx => hes x (List.mem_cons_of_mem _ hx))
      (step_quiet_pending P w e id (hes e (List.mem_cons_self _ _)) hp)

/-- C6: a call of `askQuestion` first writes the placeholder `Thinking...`
to the `answer` element and then issues the request, whatever the text and the
question were; and as long as only events happen that are neither the
rejection of a `fetch` nor the end of the reading of a body (the two ways a
chain ends and writes) nor a further call, the chain is still in flight and
the text is still `Thinking...`. -/
theorem placeholder_until_resolution (P : Platform) (w : World) (Q : JSString) (t : List Node)
    (hq : w.question = some Q) (ha : w.answer = some t)
    (es : List Event) (hes : ∀ e ∈ es, e.quiet = true) :
    (step P w .call).effects = w.effects ++
        [.write w.nextId (lit "Thinking..."),
         .request w.nextId
           { url := lit "/ask"
             method := lit "POST"
             headers := [(lit "Content-Type", lit "application/json")]
             body := JSON.stringify P (.obj [(lit "question", .str Q)]) }] ∧
      (run P w (.call :: es)).answer = some [.text (lit "Thinking...")] ∧
      ((run P w (.call :: es)).pending w.nextId).isSome = true := by
  have hstep := askQuestion_eq P w Q t hq ha
  refine ⟨by simp [step, hstep], ?_, ?_⟩
  · rw [run_cons, run_quiet P es _ hes]
    simp [step, hstep]
  · rw [run_cons]
    apply run_quiet_pending P es _ _ hes
    simp [step, hstep]

theorem placeholder_until_resolution_witness :
    (step Platform.sample World.sample .call).effects = World.sample.effects ++
        [.write World.sample.nextId (lit "Thinking..."),
         .request World.sample.nextId
           { url := lit "/ask"
             method := lit "POST"
             headers := [(lit "Content-Type", lit "application/json")]
             body := JSON.stringify Platform.sample
               (.obj [(lit "question", .str (lit "What is a heap?"))]) }] ∧
      (run Platform.sample World.sample
        (.call :: [.input (lit "x"), .fetchSettled 0 (.ok ⟨200, []⟩), .input []])).answer =
        some [.text (lit "Thinking...")] ∧
      ((run Platform.sample World.sample
        (.call :: [.input (lit "x"), .fetchSettled 0 (.ok ⟨200, []⟩), .input []])).pending
          World.sample.nextId).isSome = true :=
  placeholder_until_resolution Platform.sample World.sample (lit "What is a heap?") [] rfl rfl
    [.input (lit "x"), .fetchSettled 0 (.ok ⟨200, []⟩), .input []] (by simp [Event.quiet])

theorem step_fetch_ok_irrelevant (P : Platform) (w : World) (id : Nat) (res res2 : Response) :
    step P w (.fetchSettled id (.ok res)) = step P w (.fetchSettled id (.ok res2)) := by
  cases hp : w.pending id with
  | none => simp [step, hp]
  | some s => cases s <;> simp [step, hp]

theorem onData_null (P : Platform) (inv : Nat) (w : World) :
    onData P inv .null w = (.error typeError, w) := rfl

/-- C7: with both elements in the document, `askQuestion` returns `undefined`
to its caller, and every failure of the request is recovered in the chain.
When the `fetch` is rejected, and when the body cannot be read, fails to
parse, or parses to a value on which the success handler throws, the page
after the event differs from the page before it in this only: the text of the
`answer` element is `Error occurred.`, that one write is recorded, and the
chain is finished with its last promise fulfilled with `undefined`. -/
theorem failure_is_recovered (P : Platform) (w : World) (Q : JSString) (t : List Node)
    (hq : w.question = some Q) (ha : w.answer = some t) (es1 es2 : List Event)
    (h1 : ∀ e ∈ es1, e.target ≠ some w.nextId) (h2 : ∀ e ∈ es2, e.target ≠ some w.nextId)
    (e : JSVal) (res : Response) (r : Except JSVal JSString)
    (hfail : ∀ data, Response.json r = .ok data → ∃ x, answerText P data = .error x) :
    (askQuestion P w).1 = .ok .undefined ∧
      (∀ w1, w1 = run P w (.call :: es1) →
        run P w (.call :: es1 ++ [.fetchSettled w.nextId (.error e)]) =
          { w1 with
            answer := some [.text (lit "Error occurred.")]
            pending := Function.update w1.pending w.nextId none
            settled := Function.update w1.settled w.nextId (some (.ok .undefined))
            effects := w1.effects ++ [.write w.nextId (lit "Error occurred.")] }) ∧
      (∀ w2, w2 = run P w (.call :: es1 ++ .fetchSettled w.nextId (.ok res) :: es2) →
        run P w (.call :: es1 ++ .fetchSettled w.nextId (.ok res) :: es2 ++
            [.bodySettled w.nextId r]) =
          { w2 with
            answer := some [.text (lit "Error occurred.")]
            pending := Function.update w2.pending w.nextId none
            settled := Function.update w2.settled w.nextId (some (.ok .undefined))
            effects := w2.effects ++ [.write w.nextId (lit "Error occurred.")] }) := by
  refine ⟨by rw [askQuestion_eq P w Q t hq ha], ?_, ?_⟩
  · intro w1 hw1
    obtain ⟨w1b, _, hw1b, _, _, _, _, hrun⟩ := run_to_rejection P w Q t hq ha es1 h1 e
    rw [hrun, hw1, hw1b]
  · intro w2 hw2
    obtain ⟨w2b, _, hw2b, _, _, _, _, hrun⟩ := run_to_body P w Q t hq ha es1 es2 h1 h2 res r
    have hshown : shown P (Response.json r) = lit "Error occurred." := by
      cases hj : Response.json r with
      | error x => rfl
      | ok data =>
        obtain ⟨x, hx⟩ := hfail data hj
        simp [shown, hx]
    rw [hrun, hw2, hw2b, hshown, fragment_error]

theorem failure_is_recovered_witness :
    (askQuestion Platform.sample World.sample).1 = .ok .undefined ∧
      (∀ w1, w1 = run Platform.sample World.sample (.call :: [.input []]) →
        run Platform.sample World.sample
            (.call :: [.input []] ++ [.fetchSettled World.sample.nextId (.error typeError)]) =
          { w1 with
            answer := some [.text (lit "Error occurred.")]
            pending := Function.update w1.pending World.sample.nextId none
            settled := Function.update w1.settled World.sample.nextId (some (.ok .undefined))
            effects := w1.effects ++ [.write World.sample.nextId (lit "Error occurred.")] }) ∧
      (∀ w2, w2 = run Platform.sample World.sample
          (.call :: [.input []] ++ .fetchSettled World.sample.nextId (.ok ⟨200, []⟩) :: []) →
        run Platform.sample World.sample
            (.call :: [.input []] ++ .fetchSettled World.sample.nextId (.ok ⟨200, []⟩) :: [] ++
              [.bodySettled World.sample.nextId
                (.ok (lit "\x7b\"answer\": \x7b\"toString\": 1\x7d\x7d"))]) =
          { w2 with
            answer := some [.text (lit "Error occurred.")]
            pending := Function.update w2.pending World.sample.nextId none
            settled := Function.update w2.settled World.sample.nextId (some (.ok .undefined))
            effects := w2.effects ++ [.write World.sample.nextId (lit "Error occurred.")] }) :=
  failure_is_recovered Platform.sample World.sample (lit "What is a heap?") [] rfl rfl
    [.input []] [] (by simp [Event.target]) (by simp) typeError ⟨200, []⟩
    (.ok (lit "\x7b\"answer\": \x7b\"toString\": 1\x7d\x7d"))
    (by
      intro data h
      have hd : data = .obj [(lit "answer", .obj [(lit "toString", .num (lit "1"))])] :=
        (Except.ok.inj h).symm
      subst hd
      exact ⟨typeError, rfl⟩)

/-- C10: when the body of the response parses as `null`, the read of
`data.answer` in the success handler throws a `TypeError` and the handler
leaves the page as it was; the catch handler then writes `Error occurred.`,
which is the text the `answer` element ends with, and the one write of this
invocation after the placeholder. -/
theorem null_body_shows_error (P : Platform) (w : World) (Q : JSString) (t : List Node)
    (hq : w.question = some Q) (ha : w.answer = some t) (es1 es2 : List Event)
    (h1 : ∀ e ∈ es1, e.target ≠ some w.nextId) (h2 : ∀ e ∈ es2, e.target ≠ some w.nextId)
    (res : Response) (body : JSString) (hparse : JSON.parse body = .ok .null) :
    (∀ inv w2, onData P inv .null w2 = (.error typeError, w2)) ∧
      (run P w (.call :: es1 ++ .fetchSettled w.nextId (.ok res) :: es2 ++
        [.bodySettled w.nextId (.ok body)])).answer = some [.text (lit "Error occurred.")] ∧
      effectsOf (run P w (.call :: es1 ++ .fetchSettled w.nextId (.ok res) :: es2 ++
        [.bodySettled w.nextId (.ok body)])) w.nextId = effectsOf w w.nextId ++
        [.write w.nextId (lit "Thinking..."),
         .request w.nextId
           { url := lit "/ask"
             method := lit "POST"
             headers := [(lit "Content-Type", lit "application/json")]
             body := JSON.stringify P (.obj [(lit "question", .str Q)]) },
         .write w.nextId (lit "Error occurred.")] := by
  obtain ⟨w2, t2, hw2, _, _, _, heff, hrun⟩ :=
    run_to_body P w Q t hq ha es1 es2 h1 h2 res (.ok body)
  have hshown : shown P (Response.json (.ok body)) = lit "Error occurred." := by
    simp [shown, Response.json, hparse, answerText, getV]
  refine ⟨fun inv w2 => onData_null P inv w2, by rw [hrun, hshown, fragment_error], ?_⟩
  rw [hrun, hshown, fragment_error]
  have : effectsOf
      { w2 with
        answer := some [.text (lit "Error occurred.")]
        pending := Function.update w2.pending w.nextId none
        settled := Function.update w2.settled w.nextId (some (.ok .undefined))
        effects := w2.effects ++ [.write w.nextId (lit "Error occurred.")] } w.nextId =
      effectsOf w2 w.nextId ++ [.write w.nextId (lit "Error occurred.")] := by
    simp [effectsOf, List.filter_append, Effect.inv]
  rw [this, heff]
  simp

theorem null_body_shows_error_witness :
    (∀ inv w2, onData Platform.sample inv .null w2 = (.error typeError, w2)) ∧
      (run Platform.sample World.sample
        (.call :: [] ++ .fetchSettled World.sample.nextId (.ok ⟨200, []⟩) :: [] ++
        [.bodySettled World.sample.nextId (.ok (lit " null "))])).answer =
        some [.text (lit "Error occurred.")] ∧
      effectsOf (run Platform.sample World.sample
        (.call :: [] ++ .fetchSettled World.sample.nextId (.ok ⟨200, []⟩) :: [] ++
        [.bodySettled World.sample.nextId (.ok (lit " null "))])) World.sample.nextId =
        effectsOf World.sample World.sample.nextId ++
        [.write World.sample.nextId (lit "Thinking..."),
         .request World.sample.nextId
           { url := lit "/ask"
             method := lit "POST"
             headers := [(lit "Content-Type", lit "application/json")]
             body := JSON.stringify Platform.sample
               (.obj [(lit "question", .str (lit "What is a heap?"))]) },
         .write World.sample.nextId (lit "Error occurred.")] :=
  null_body_shows_error Platform.sample World.sample (lit "What is a heap?") [] rfl rfl
    [] [] (by simp) (by simp) ⟨200, []⟩ (lit " null ") rfl

theorem chain_result_body (P : Platform) (wc : World) (id : Nat) (res : Response)
    (r : Except JSVal JSString) (pre : List Event)
    (ha : wc.answer.isSome = true) (hid : id < wc.nextId)
    (hp : wc.pending id = some .fetching)
    (hf : pre.filter (fun e => decide (e.target = some id)) = [.fetchSettled id (.ok res)]) :
    (step P (run P wc pre) (.bodySettled id r)).answer =
      some (renderedTextFragment (shown P (Response.json r))) := by
  obtain ⟨p1, p2, hsplit, hp1, _, hp2⟩ := List.filter_eq_cons_iff.mp hf
  have h1 : ∀ x ∈ p1, x.target ≠ some id := by
    intro x hx; simpa using hp1 x hx
  have h2 : ∀ x ∈ p2, x.target ≠ some id := by
    simpa [List.filter_eq_nil_iff] using hp2
  obtain ⟨k1, k2, k3, _, _⟩ := run_frame P p1 wc id ha hid h1
  rw [hsplit, run_append, run_cons, step_fetch_fulfilled P _ _ res (k3.trans hp)]
  obtain ⟨m1, _, m3, _, _⟩ := run_frame P p2
    { run P wc p1 with
      pending := Function.update (run P wc p1).pending id (some .reading) } id k1 k2 h2
  obtain ⟨t1, ht1⟩ := Option.isSome_iff_exists.mp m1
  rw [step_body P _ _ r (m3.trans (by simp)), finish_eq P _ _ _ t1 ht1]

/-- A chain that waits for its `fetch` and then gets the events of an outcome,
among any other events, ends by writing the text of that outcome. -/
theorem chain_result (P : Platform) (wc : World) (id : Nat) (o : Outcome)
    (pre : List Event) (last : Event)
    (ha : wc.answer.isSome = true) (hid : id < wc.nextId)
    (hp : wc.pending id = some .fetching)
    (hf : (pre ++ [last]).filter (fun e => e.target = some id) = o.events id)
    (hl : last.target = some id) :
    (run P wc (pre ++ [last])).answer = some (renderedTextFragment (shown P o.settles)) := by
  have hfl : (pre.filter (fun e => decide (e.target = some id))) ++ [last] = o.events id := by
    rw [← hf, List.filter_append]
    simp [List.filter, hl]
  rw [run_append, run_single]
  cases o with
  | rejected e =>
    have hpre : pre.filter (fun e => decide (e.target = some id)) = [] ∧
        last = .fetchSettled id (.error e) := by
      cases hx : pre.filter (fun e => decide (e.target = some id)) with
      | nil => rw [hx] at hfl; simpa [Outcome.events] using hfl
      | cons y ys => rw [hx] at hfl; simp [Outcome.events] at hfl
    obtain ⟨hnil, hlast⟩ := hpre
    have hforeign : ∀ x ∈ pre, x.target ≠ some id := by
      simpa [List.filter_eq_nil_iff] using hnil
    obtain ⟨k1, _, k3, _, _⟩ := run_frame P pre wc id ha hid hforeign
    obtain ⟨t1, ht1⟩ := Option.isSome_iff_exists.mp k1
    rw [hlast, step_fetch_rejected P _ _ e (k3.trans hp), finish_eq P _ _ _ t1 ht1]
    rfl
  | unread res e =>
    have hpre : pre.filter (fun e => decide (e.target = some id)) =
        [.fetchSettled id (.ok res)] ∧ last = .bodySettled id (.error e) := by
      have hfl2 : pre.filter (fun e => decide (e.target = some id)) ++ [last] =
          [Event.fetchSettled id (.ok res)] ++ [Event.bodySettled id (.error e)] := hfl
      have := List.append_inj' hfl2 rfl
      exact ⟨this.1, by simpa using this.2⟩
    rw [hpre.2]
    exact chain_result_body P wc id res (.error e) pre ha hid hp hpre.1
  | received res body =>
    have hpre : pre.filter (fun e => decide (e.target = some id)) =
        [.fetchSettled id (.ok res)] ∧ last = .bodySettled id (.ok body) := by
      have hfl2 : pre.filter (fun e => decide (e.target = some id)) ++ [last] =
          [Event.fetchSettled id (.ok res)] ++ [Event.bodySettled id (.ok body)] := hfl
      have := List.append_inj' hfl2 rfl
      exact ⟨this.1, by simpa using this.2⟩
    rw [hpre.2]
    exact chain_result_body P wc id res (.ok body) pre ha hid hp hpre.1


/-- Some texts and their values under `JSON.parse`. -/
theorem JSON.parse_examples :
    JSON.parse (lit " \x7b \"answer\" : \"4\\u00412\" , \"b\":[1,-2.5e+3, true,null]\x7d ") =
        .ok (.obj [(lit "answer", .str (lit "4A2")),
          (lit "b", .arr [.num (lit "1"), .num (lit "-2.5e+3"), .bool true, .null])]) ∧
      JSON.parse (lit "\x7b\"a\":1,\"b\":2,\"a\":3\x7d") =
        .ok (.obj [(lit "a", .num (lit "3")), (lit "b", .num (lit "2"))]) ∧
      JSON.parse (lit "nul") = .error syntaxError ∧
      JSON.parse (lit "[1,]") = .error syntaxError ∧
      JSON.parse (lit "01") = .error syntaxError ∧
      JSON.parse (lit "\"a\nb\"") = .error syntaxError ∧
      JSON.parse [] = .error syntaxError :=
  ⟨rfl, rfl, rfl, rfl, rfl, rfl, rfl⟩

/-- Some values and the text the `innerText` setter gets for them. -/
theorem toDOMString_examples (P : Platform) :
    toDOMString P .undefined = .ok (lit "undefined") ∧
      toDOMString P .null = .ok [] ∧
      toDOMString P (.arr [.str (lit "a"), .null, .arr [.bool true, .undefined]]) =
        .ok (lit "a,,true,") ∧
      toDOMString P (.obj []) = .ok (lit "[object Object]") ∧
      toDOMString P (.obj [(lit "toString", .null)]) = .error typeError :=
  ⟨rfl, rfl, rfl, rfl, rfl⟩

/-- C2, as the claim states it, fails: for the body
`\x7b"answer": "a\rb"\x7d`, whose `answer` is the string `A` of `a`, CR, `b`,
the `innerText` setter makes the CR a `<br>` element, and neither the text
content of the `answer` element (`ab`) nor its text with a line feed for the
`<br>` is `A`. -/
theorem answer_with_line_break_differs :
    JSON.parse (lit "\x7b\"answer\": \"a\\rb\"\x7d") =
        .ok (.obj [(lit "answer", .str (lit "a\rb"))]) ∧
      lookupProp (lit "answer") [(lit "answer", .str (lit "a\rb"))] = some (.str (lit "a\rb")) ∧
      (run Platform.sample World.sample
        [.call, .fetchSettled 0 (.ok ⟨200, []⟩),
         .bodySettled 0 (.ok (lit "\x7b\"answer\": \"a\\rb\"\x7d"))]).answer =
        some [.text (lit "a"), .br, .text (lit "b")] ∧
      textContent [.text (lit "a"), .br, .text (lit "b")] ≠ lit "a\rb" ∧
      textWithBreaks [.text (lit "a"), .br, .text (lit "b")] ≠ lit "a\rb" :=
  ⟨rfl, rfl, rfl, by decide, by decide⟩

/-- C2, amended: when the body of the response parses as an object whose
property `answer` is the string `A`, then once the body has been read the
`answer` element holds the rendered text fragment of `A`: a text node for each
run of `A` between line breaks and a `<br>` element for each CR, LF or CR LF.
Its text content is `A` without its CR and LF, and when `A` has neither, the
element holds `A` as its one text node (nothing when `A` is empty) and its
text content is `A` exactly.  This holds whatever the element held and the
question was before the call, whatever the response status and headers, and
whatever other events happened in between. -/
theorem answer_is_rendered (P : Platform) (w : World) (Q : JSString) (t : List Node)
    (hq : w.question = some Q) (ha : w.answer = some t) (es1 es2 : List Event)
    (h1 : ∀ e ∈ es1, e.target ≠ some w.nextId) (h2 : ∀ e ∈ es2, e.target ≠ some w.nextId)
    (res : Response) (body : JSString) (props : List (JSString × JSVal)) (A : JSString)
    (hparse : JSON.parse body = .ok (.obj props))
    (hA : lookupProp (lit "answer") props = some (.str A)) :
    (run P w (.call :: es1 ++ .fetchSettled w.nextId (.ok res) :: es2 ++
        [.bodySettled w.nextId (.ok body)])).answer = some (renderedTextFragment A) ∧
      textContent (renderedTextFragment A) =
        A.filter (fun c => decide (c ≠ 0x0A ∧ c ≠ 0x0D)) ∧
      ((∀ c ∈ A, c ≠ 0x0A ∧ c ≠ 0x0D) →
        renderedTextFragment A = (if A = [] then [] else [.text A]) ∧
        textContent (renderedTextFragment A) = A) := by
  obtain ⟨w2, t2, _, _, _, _, _, hrun⟩ :=
    run_to_body P w Q t hq ha es1 es2 h1 h2 res (.ok body)
  refine ⟨?_, textContent_renderedTextFragment A, ?_⟩
  · rw [hrun]
    simp [shown, Response.json, hparse, answerText, getV, hA, toDOMString, toStr]
  · intro hno
    have hfrag : renderedTextFragment A = flushRun A := by
      have := fragmentFrom_no_break A [] hno
      simpa [renderedTextFragment] using this
    refine ⟨by rw [hfrag]; rfl, ?_⟩
    rw [hfrag, textContent_flushRun]

theorem answer_is_rendered_witness :
    (run Platform.sample World.sample
        (.call :: [.input (lit "next")] ++ .fetchSettled World.sample.nextId (.ok ⟨200, []⟩) ::
          [.call] ++
          [.bodySettled World.sample.nextId (.ok (lit "\x7b\"answer\": \"42\"\x7d"))])).answer =
        some (renderedTextFragment (lit "42")) ∧
      textContent (renderedTextFragment (lit "42")) =
        (lit "42").filter (fun c => decide (c ≠ 0x0A ∧ c ≠ 0x0D)) ∧
      ((∀ c ∈ lit "42", c ≠ 0x0A ∧ c ≠ 0x0D) →
        renderedTextFragment (lit "42") = (if lit "42" = [] then [] else [.text (lit "42")]) ∧
        textContent (renderedTextFragment (lit "42")) = lit "42") :=
  answer_is_rendered Platform.sample World.sample (lit "What is a heap?") [] rfl rfl
    [.input (lit "next")] [.call] (by simp [Event.target]) (by simp [Event.target])
    ⟨200, []⟩ (lit "\x7b\"answer\": \"42\"\x7d") [(lit "answer", .str (lit "42"))] (lit "42")
    rfl rfl

/-- The body `\x7b"answer": "42"\x7d` leaves the one text node `42`. -/
theorem answer_42 :
    (run Platform.sample World.sample
      [.call, .fetchSettled 0 (.ok ⟨200, []⟩),
       .bodySettled 0 (.ok (lit "\x7b\"answer\": \"42\"\x7d"))]).answer =
      some [.text (lit "42")] := rfl

/-- C9, as the claim states it, fails.  A response with status 500 whose body
is `null` ends with `Error occurred.` though its body parses, and so does one
whose body carries that literal as its `answer`; and for the body whose
`answer` is the string `A` of `a`, CR, `b` the element does not end with the
text `A`. -/
theorem error_literal_without_parse_failure :
    (JSON.parse (lit "null") = .ok .null ∧
      (run Platform.sample World.sample
        [.call, .fetchSettled 0 (.ok ⟨500, []⟩), .bodySettled 0 (.ok (lit "null"))]).answer =
        some [.text (lit "Error occurred.")]) ∧
    (JSON.parse (lit "\x7b\"answer\": \"Error occurred.\"\x7d") =
        .ok (.obj [(lit "answer", .str (lit "Error occurred."))]) ∧
      (run Platform.sample World.sample
        [.call, .fetchSettled 0 (.ok ⟨500, []⟩),
         .bodySettled 0 (.ok (lit "\x7b\"answer\": \"Error occurred.\"\x7d"))]).answer =
        some [.text (lit "Error occurred.")]) ∧
    (JSON.parse (lit "\x7b\"answer\": \"a\\rb\"\x7d") =
        .ok (.obj [(lit "answer", .str (lit "a\rb"))]) ∧
      (run Platform.sample World.sample
        [.call, .fetchSettled 0 (.ok ⟨500, []⟩),
         .bodySettled 0 (.ok (lit "\x7b\"answer\": \"a\\rb\"\x7d"))]).answer =
        some [.text (lit "a"), .br, .text (lit "b")] ∧
      textContent [.text (lit "a"), .br, .text (lit "b")] ≠ lit "a\rb" ∧
      textWithBreaks [.text (lit "a"), .br, .text (lit "b")] ≠ lit "a\rb") :=
  ⟨⟨rfl, rfl⟩, ⟨rfl, rfl⟩, ⟨rfl, rfl, by decide, by decide⟩⟩

/-- C9, amended: the response the `fetch` was fulfilled with (status,
headers) is never consulted.  Two runs that differ only in it end with the
same page.  For every status, a body that parses as an object whose property
`answer` is the string `A` leaves the rendered text fragment of `A` in the
`answer` element, whose text content is `A` exactly when `A` has no LF and no
CR.  And for every status the element ends holding the error literal only if
the body could not be read, or did not parse, or parsed to a value on which
the success handler throws, or parsed to a value whose `answer` the success
handler writes as that very literal. -/
theorem status_is_ignored (P : Platform) (w : World) (Q : JSString) (t : List Node)
    (hq : w.question = some Q) (ha : w.answer = some t) (es1 es2 : List Event)
    (h1 : ∀ e ∈ es1, e.target ≠ some w.nextId) (h2 : ∀ e ∈ es2, e.target ≠ some w.nextId)
    (res res2 : Response) (r : Except JSVal JSString) :
    run P w (.call :: es1 ++ .fetchSettled w.nextId (.ok res) :: es2 ++
        [.bodySettled w.nextId r]) =
      run P w (.call :: es1 ++ .fetchSettled w.nextId (.ok res2) :: es2 ++
        [.bodySettled w.nextId r]) ∧
    (∀ props A, Response.json r = .ok (.obj props) →
      lookupProp (lit "answer") props = some (.str A) →
      (run P w (.call :: es1 ++ .fetchSettled w.nextId (.ok res) :: es2 ++
        [.bodySettled w.nextId r])).answer = some (renderedTextFragment A) ∧
      ((∀ c ∈ A, c ≠ 0x0A ∧ c ≠ 0x0D) → textContent (renderedTextFragment A) = A)) ∧
    ((run P w (.call :: es1 ++ .fetchSettled w.nextId (.ok res) :: es2 ++
        [.bodySettled w.nextId r])).answer = some [.text (lit "Error occurred.")] →
      (∃ e, r = .error e) ∨
      (∃ body e, r = .ok body ∧ JSON.parse body = .error e) ∨
      (∃ body data e, r = .ok body ∧ JSON.parse body = .ok data ∧
        answerText P data = .error e) ∨
      (∃ body data, r = .ok body ∧ JSON.parse body = .ok data ∧
        answerText P data = .ok (lit "Error occurred."))) := by
  obtain ⟨w2, t2, hw2, _, _, _, heff, hrun⟩ := run_to_body P w Q t hq ha es1 es2 h1 h2 res r
  refine ⟨?_, ?_, ?_⟩
  · simp only [run, List.cons_append, List.foldl_cons, List.foldl_append,
      step_fetch_ok_irrelevant P _ _ res res2]
  · intro props A hj hA
    refine ⟨?_, ?_⟩
    · rw [hrun]
      simp [shown, hj, answerText, getV, hA, toDOMString, toStr]
    · intro hno
      have hfrag : renderedTextFragment A = flushRun A := by
        have := fragmentFrom_no_break A [] hno
        simpa [renderedTextFragment] using this
      rw [hfrag, textContent_flushRun]
  · intro hlit
    rw [hrun] at hlit
    simp only [Option.some.injEq] at hlit
    cases r with
    | error e => exact Or.inl ⟨e, rfl⟩
    | ok body =>
      cases hp : JSON.parse body with
      | error e => exact Or.inr (Or.inl ⟨body, e, rfl, hp⟩)
      | ok data =>
        cases hat : answerText P data with
        | error e => exact Or.inr (Or.inr (Or.inl ⟨body, data, e, rfl, hp, hat⟩))
        | ok text =>
          have hshown : shown P (Response.json (.ok body)) = text := by
            simp [shown, Response.json, hp, hat]
          rw [hshown] at hlit
          have := renderedTextFragment_eq_text _ _ hlit
          subst this
          exact Or.inr (Or.inr (Or.inr ⟨body, data, rfl, hp, hat⟩))

theorem status_is_ignored_witness :
    run Platform.sample World.sample
      (.call :: [] ++ .fetchSettled World.sample.nextId (.ok ⟨200, []⟩) :: [] ++
        [.bodySettled World.sample.nextId (.ok (lit "\x7b\"answer\": \"42\"\x7d"))]) =
      run Platform.sample World.sample
      (.call :: [] ++ .fetchSettled World.sample.nextId (.ok ⟨500, []⟩) :: [] ++
        [.bodySettled World.sample.nextId (.ok (lit "\x7b\"answer\": \"42\"\x7d"))]) ∧
    (∀ props A, Response.json (.ok (lit "\x7b\"answer\": \"42\"\x7d")) = .ok (.obj props) →
      lookupProp (lit "answer") props = some (.str A) →
      (run Platform.sample World.sample
        (.call :: [] ++ .fetchSettled World.sample.nextId (.ok ⟨200, []⟩) :: [] ++
        [.bodySettled World.sample.nextId (.ok (lit "\x7b\"answer\": \"42\"\x7d"))])).answer =
        some (renderedTextFragment A) ∧
      ((∀ c ∈ A, c ≠ 0x0A ∧ c ≠ 0x0D) → textContent (renderedTextFragment A) = A)) ∧
    ((run Platform.sample World.sample
        (.call :: [] ++ .fetchSettled World.sample.nextId (.ok ⟨200, []⟩) :: [] ++
        [.bodySettled World.sample.nextId (.ok (lit "\x7b\"answer\": \"42\"\x7d"))])).answer =
        some [.text (lit "Error occurred.")] →
      (∃ e, (Except.ok (lit "\x7b\"answer\": \"42\"\x7d") : Except JSVal JSString) = .error e) ∨
      (∃ body e, (Except.ok (lit "\x7b\"answer\": \"42\"\x7d") : Except JSVal JSString) =
        .ok body ∧ JSON.parse body = .error e) ∨
      (∃ body data e, (Except.ok (lit "\x7b\"answer\": \"42\"\x7d") : Except JSVal JSString) =
        .ok body ∧ JSON.parse body = .ok data ∧ answerText Platform.sample data = .error e) ∨
      (∃ body data, (Except.ok (lit "\x7b\"answer\": \"42\"\x7d") : Except JSVal JSString) =
        .ok body ∧ JSON.parse body = .ok data ∧
        answerText Platform.sample data = .ok (lit "Error occurred."))) :=
  status_is_ignored Platform.sample World.sample (lit "What is a heap?") [] rfl rfl
    [] [] (by simp) (by simp) ⟨200, []⟩ ⟨500, []⟩ (.ok (lit "\x7b\"answer\": \"42\"\x7d"))

/-- No event removes an element or takes back an invocation number. -/
theorem step_alive (P : Platform) (w : World) (e : Event)
    (hq : w.question.isSome = true) (ha : w.answer.isSome = true) :
    (step P w e).question.isSome = true ∧ (step P w e).answer.isSome = true ∧
      w.nextId ≤ (step P w e).nextId := by
  obtain ⟨t, ht⟩ := Option.isSome_iff_exists.mp ha
  obtain ⟨q, hq2⟩ := Option.isSome_iff_exists.mp hq
  cases e with
  | input text => simp [step, ha, hq2]
  | call => simp [step, askQuestion_eq P w q t hq2 ht, hq2]
  | fetchSettled j r =>
    cases hp : w.pending j with
    | none => simp [step, hp, ha, hq]
    | some s =>
      cases s with
      | reading => simp [step, hp, ha, hq]
      | fetching =>
        cases r with
        | error x =>
          rw [step_fetch_rejected P w j x hp, finish_eq P j _ w t ht]
          simp [hq]
        | ok res =>
          rw [step_fetch_fulfilled P w j res hp]
          simp [hq, ha]
  | bodySettled j r =>
    cases hp : w.pending j with
    | none => simp [step, hp, ha, hq]
    | some s =>
      cases s with
      | fetching => simp [step, hp, ha, hq]
      | reading =>
        rw [step_body P w j r hp, finish_eq P j _ w t ht]
        simp [hq]

theorem run_alive (P : Platform) (es : List Event) (w : World)
    (hq : w.question.isSome = true) (ha : w.answer.isSome = true) :
    (run P w es).question.isSome = true ∧ (run P w es).answer.isSome = true ∧
      w.nextId ≤ (run P w es).nextId := by
  induction es generalizing w with
  | nil => exact ⟨hq, ha, le_refl _⟩
  | cons e es ih =>
    obtain ⟨h1, h2, h3⟩ := step_alive P w e hq ha
    obtain ⟨k1, k2, k3⟩ := ih (step P w e) h1 h2
    exact ⟨k1, k2, le_trans h3 k3⟩

/-- What a chain leaves in the element, by the outcome of its request. -/
theorem fragment_shown (P : Platform) (o : Outcome) :
    renderedTextFragment (shown P o.settles) =
      match o with
      | .rejected _ => [.text (lit "Error occurred.")]
      | .unread _ _ => [.text (lit "Error occurred.")]
      | .received _ body =>
        match JSON.parse body with
        | .error _ => [.text (lit "Error occurred.")]
        | .ok data =>
          match answerText P data with
          | .error _ => [.text (lit "Error occurred.")]
          | .ok text => renderedTextFragment text := by
  cases o with
  | rejected e => exact fragment_error
  | unread res e => exact fragment_error
  | received res body =>
    simp only [Outcome.settles, Response.json]
    cases hp : JSON.parse body with
    | error e => exact fragment_error
    | ok data =>
      cases hat : answerText P data with
      | error e => simp only [shown, hat]; exact fragment_error
      | ok text => simp only [shown, hat]

/-- C8, as the claim states it, fails: two overlapping invocations, the first
request resolving last with the body `\x7b"answer": "a\rb"\x7d`, whose
`answer` is the string `A` of `a`, CR, `b`.  The `answer` element ends with
the nodes `a`, `<br>`, `b`, and neither its text content nor its text with a
line feed for the `<br>` is `A`. -/
theorem overlap_answer_with_line_break :
    JSON.parse (lit "\x7b\"answer\": \"a\\rb\"\x7d") =
        .ok (.obj [(lit "answer", .str (lit "a\rb"))]) ∧
      (run Platform.sample World.sample
        [.call, .input (lit "second?"), .call,
         .fetchSettled 0 (.ok ⟨200, []⟩), .fetchSettled 1 (.ok ⟨200, []⟩),
         .bodySettled 1 (.ok (lit "\x7b\"answer\": \"second\"\x7d")),
         .bodySettled 0 (.ok (lit "\x7b\"answer\": \"a\\rb\"\x7d"))]).answer =
        some [.text (lit "a"), .br, .text (lit "b")] ∧
      textContent [.text (lit "a"), .br, .text (lit "b")] ≠ lit "a\rb" ∧
      textWithBreaks [.text (lit "a"), .br, .text (lit "b")] ≠ lit "a\rb" :=
  ⟨rfl, rfl, by decide, by decide⟩

/-- C8, amended: two invocations of `askQuestion`, the second called at any
moment after the first (in particular while the first request still waits
for its `fetch` or for its body), with any edits of the question and any
other events in between.  The events of the two requests arrive, each
request's in its order, merged in any way, and the last event of all belongs
to one of the two: that request is the one that resolved last.  Then the
`answer` element holds what that request's outcome gives, whichever of the
two was called last: the error literal when its `fetch` was rejected, its
body could not be read or did not parse, or the success handler threw on the
parsed value; else the rendered text fragment of the string that
`data.answer` converts to. -/
theorem last_resolved_wins (P : Platform) (w : World) (Q : JSString) (t : List Node)
    (hq : w.question = some Q) (ha : w.answer = some t)
    (es0 es1 : List Event) (last : Event) (b : Nat) (oa ob : Outcome)
    (hb : (run P w (.call :: es0)).nextId = b)
    (hA : (es0 ++ .call :: es1 ++ [last]).filter (fun e => e.target = some w.nextId) =
      oa.events w.nextId)
    (hB : (es1 ++ [last]).filter (fun e => e.target = some b) = ob.events b)
    (hl : last.target = some w.nextId ∨ last.target = some b) :
    (run P w (.call :: es0 ++ .call :: es1 ++ [last])).answer =
      some (match (if last.target = some w.nextId then oa else ob) with
        | .rejected _ => [.text (lit "Error occurred.")]
        | .unread _ _ => [.text (lit "Error occurred.")]
        | .received _ body =>
          match JSON.parse body with
          | .error _ => [.text (lit "Error occurred.")]
          | .ok data =>
            match answerText P data with
            | .error _ => [.text (lit "Error occurred.")]
            | .ok text => renderedTextFragment text) := by
  have hstep := askQuestion_eq P w Q t hq ha
  have c1 : (step P w .call).answer.isSome = true := by simp [step, hstep]
  have c2 : (step P w .call).question.isSome = true := by simp [step, hstep, hq]
  have c3 : w.nextId < (step P w .call).nextId := by simp [step, hstep]
  have c4 : (step P w .call).pending w.nextId = some .fetching := by simp [step, hstep]
  by_cases hla : last.target = some w.nextId
  · rw [if_pos hla, ← fragment_shown P oa]
    have hlist : Event.call :: es0 ++ .call :: es1 ++ [last] =
        Event.call :: ((es0 ++ .call :: es1) ++ [last]) := by simp
    rw [hlist, run_cons]
    exact chain_result P _ w.nextId oa (es0 ++ .call :: es1) last c1 c3 c4 hA hla
  · have hlb : last.target = some b := hl.resolve_left hla
    rw [if_neg hla, ← fragment_shown P ob]
    obtain ⟨a1, a2, _⟩ := run_alive P es0 (step P w .call) c2 c1
    have hb2 : (run P (step P w .call) es0).nextId = b := hb
    have hlist : Event.call :: es0 ++ .call :: es1 ++ [last] =
        Event.call :: (es0 ++ .call :: (es1 ++ [last])) := by simp
    rw [hlist, run_cons, run_append, run_cons]
    generalize run P (step P w .call) es0 = w1 at a1 a2 hb2 ⊢
    obtain ⟨q2, hq2⟩ := Option.isSome_iff_exists.mp a1
    obtain ⟨t2, ht2⟩ := Option.isSome_iff_exists.mp a2
    have hstep2 := askQuestion_eq P w1 q2 t2 hq2 ht2
    apply chain_result P _ b ob es1 last _ _ _ hB hlb
    · simp [step, hstep2]
    · simp [step, hstep2, hb2]
    · simp [step, hstep2, hb2]

theorem last_resolved_wins_witness :
    (run Platform.sample World.sample
      (.call :: [.fetchSettled 0 (.ok ⟨200, []⟩), .input (lit "second?")] ++ .call ::
        [.fetchSettled 1 (.ok ⟨200, []⟩),
         .bodySettled 1 (.ok (lit "\x7b\"answer\": \"second\"\x7d"))] ++
        [.bodySettled 0 (.ok (lit "\x7b\"answer\": \"first\"\x7d"))])).answer =
      some [.text (lit "first")] ∧
    (run Platform.sample World.sample
      (.call :: [.input (lit "second?")] ++ .call ::
        [.fetchSettled 1 (.ok ⟨200, []⟩), .fetchSettled 0 (.error typeError)] ++
        [.bodySettled 1 (.ok (lit "\x7b\"answer\": \"second\"\x7d"))])).answer =
      some [.text (lit "second")] ∧
    (run Platform.sample World.sample
      (.call :: [.input (lit "second?")] ++ .call ::
        [.fetchSettled 1 (.ok ⟨200, []⟩),
         .bodySettled 1 (.ok (lit "\x7b\"answer\": \"second\"\x7d"))] ++
        [.fetchSettled 0 (.error typeError)])).answer =
      some [.text (lit "Error occurred.")] :=
  ⟨last_resolved_wins Platform.sample World.sample (lit "What is a heap?") [] rfl rfl
      [.fetchSettled 0 (.ok ⟨200, []⟩), .input (lit "second?")]
      [.fetchSettled 1 (.ok ⟨200, []⟩),
       .bodySettled 1 (.ok (lit "\x7b\"answer\": \"second\"\x7d"))]
      (.bodySettled 0 (.ok (lit "\x7b\"answer\": \"first\"\x7d"))) 1
      (.received ⟨200, []⟩ (lit "\x7b\"answer\": \"first\"\x7d"))
      (.received ⟨200, []⟩ (lit "\x7b\"answer\": \"second\"\x7d"))
      rfl rfl rfl (Or.inl rfl),
   last_resolved_wins Platform.sample World.sample (lit "What is a heap?") [] rfl rfl
      [.input (lit "second?")]
      [.fetchSettled 1 (.ok ⟨200, []⟩), .fetchSettled 0 (.error typeError)]
      (.bodySettled 1 (.ok (lit "\x7b\"answer\": \"second\"\x7d"))) 1
      (.rejected typeError)
      (.received ⟨200, []⟩ (lit "\x7b\"answer\": \"second\"\x7d"))
      rfl rfl rfl (Or.inr rfl),
   last_resolved_wins Platform.sample World.sample (lit "What is a heap?") [] rfl rfl
      [.input (lit "second?")]
      [.fetchSettled 1 (.ok ⟨200, []⟩),
       .bodySettled 1 (.ok (lit "\x7b\"answer\": \"second\"\x7d"))]
      (.fetchSettled 0 (.error typeError)) 1
      (.rejected typeError)
      (.received ⟨200, []⟩ (lit "\x7b\"answer\": \"second\"\x7d"))
      rfl rfl rfl (Or.inl rfl)⟩

end AskQuestion
